import Mathlib

set_option maxRecDepth 100000

/-!
# Verification of the web-scrapping repository's resource-resolution spec

This file shallowly embeds the parts of the repository that the frozen
claims are about:

* `MD5` — a faithful model of Python's `hashlib.md5(...).hexdigest()`
  restricted to ASCII input (all URLs handled by the scrapers are ASCII,
  and UTF-8 agrees with ASCII on that range);
* `Py` — models of the Python standard-library functions the scrapers
  call (`os.path.*`, `urllib.parse.*`, `str` methods);
* `SE` — `scrap-everything.py` (`RecursiveWebsiteScraper`);
* `WS` — `scraper.py` (`WebsiteScraper`, the consolidating variant);
* `LS` — `local_scraper.py` (`LocalHtmlScraper`);
* `LF` — `link-replacer.py` (`LinkFixer`).

Network and filesystem effects are abstracted as explicit oracles
(`fetchOk : String → Bool`, `fsExists : String → Bool`) passed to the
embedded functions; every other computation is translated directly from
the source.
-/

namespace MD5

/-- 2^32, the word modulus of MD5. -/
def m32 : Nat := 4294967296

/-- Truncate to a 32-bit word. -/
def mask (x : Nat) : Nat := x % m32

/-- 32-bit left rotation (operands assumed `< 2^32`). -/
def rotl (x n : Nat) : Nat := mask ((x <<< n) + (x >>> (32 - n)))

/-- Bitwise complement within 32 bits. -/
def bnot (x : Nat) : Nat := x ^^^ 4294967295

/-- The 64 round constants `K[i] = floor(2^32 * |sin(i+1)|)` of RFC 1321. -/
def K : List Nat :=
  [0xd76aa478, 0xe8c7b756, 0x242070db, 0xc1bdceee,
   0xf57c0faf, 0x4787c62a, 0xa8304613, 0xfd469501,
   0x698098d8, 0x8b44f7af, 0xffff5bb1, 0x895cd7be,
   0x6b901122, 0xfd987193, 0xa679438e, 0x49b40821,
   0xf61e2562, 0xc040b340, 0x265e5a51, 0xe9b6c7aa,
   0xd62f105d, 0x02441453, 0xd8a1e681, 0xe7d3fbc8,
   0x21e1cde6, 0xc33707d6, 0xf4d50d87, 0x455a14ed,
   0xa9e3e905, 0xfcefa3f8, 0x676f02d9, 0x8d2a4c8a,
   0xfffa3942, 0x8771f681, 0x6d9d6122, 0xfde5380c,
   0xa4beea44, 0x4bdecfa9, 0xf6bb4b60, 0xbebfbc70,
   0x289b7ec6, 0xeaa127fa, 0xd4ef3085, 0x04881d05,
   0xd9d4d039, 0xe6db99e5, 0x1fa27cf8, 0xc4ac5665,
   0xf4292244, 0x432aff97, 0xab9423a7, 0xfc93a039,
   0x655b59c3, 0x8f0ccc92, 0xffeff47d, 0x85845dd1,
   0x6fa87e4f, 0xfe2ce6e0, 0xa3014314, 0x4e0811a1,
   0xf7537e82, 0xbd3af235, 0x2ad7d2bb, 0xeb86d391]

/-- The per-round left-rotation amounts of RFC 1321. -/
def S : List Nat :=
  [7, 12, 17, 22, 7, 12, 17, 22, 7, 12, 17, 22, 7, 12, 17, 22,
   5,  9, 14, 20, 5,  9, 14, 20, 5,  9, 14, 20, 5,  9, 14, 20,
   4, 11, 16, 23, 4, 11, 16, 23, 4, 11, 16, 23, 4, 11, 16, 23,
   6, 10, 15, 21, 6, 10, 15, 21, 6, 10, 15, 21, 6, 10, 15, 21]

/-- The four 32-bit chaining registers. -/
structure Regs where
  a : Nat
  b : Nat
  c : Nat
  d : Nat
deriving DecidableEq, Repr

/-- The initial chaining value. -/
def init : Regs := ⟨0x67452301, 0xefcdab89, 0x98badcfe, 0x10325476⟩

/-- One of the 64 rounds on one message block `M` (16 words). -/
def round (M : List Nat) (r : Regs) (i : Nat) : Regs :=
  let fg : Nat × Nat :=
    if i < 16 then ((r.b &&& r.c) + (bnot r.b &&& r.d), i)
    else if i < 32 then ((r.d &&& r.b) + (bnot r.d &&& r.c), (5 * i + 1) % 16)
    else if i < 48 then (r.b ^^^ r.c ^^^ r.d, (3 * i + 5) % 16)
    else (r.c ^^^ (r.b ||| bnot r.d), (7 * i) % 16)
  let v : Nat := mask (fg.1 + r.a + K.getD i 0 + M.getD fg.2 0)
  ⟨r.d, mask (r.b + rotl v (S.getD i 0)), r.b, r.c⟩

/-- Process one 64-byte block (given as 16 little-endian words). -/
def block (r : Regs) (M : List Nat) : Regs :=
  let e := (List.range 64).foldl (round M) r
  ⟨mask (r.a + e.a), mask (r.b + e.b), mask (r.c + e.c), mask (r.d + e.d)⟩

/-- Interpret four consecutive bytes as a little-endian 32-bit word. -/
def word (b : List Nat) : Nat :=
  b.getD 0 0 + 256 * b.getD 1 0 + 65536 * b.getD 2 0 + 16777216 * b.getD 3 0

/-- Split a byte list into the 16 little-endian words of one block. -/
def toWords (b : List Nat) : List Nat :=
  (List.range 16).map fun i => word ((b.drop (4 * i)).take 4)

/-- Split a list into `n` chunks of 64 elements. -/
def chunks64 : Nat → List Nat → List (List Nat)
  | 0, _ => []
  | n + 1, l => l.take 64 :: chunks64 n (l.drop 64)

/-- Little-endian byte serialization of `x` on `n` bytes. -/
def leBytes : Nat → Nat → List Nat
  | 0, _ => []
  | n + 1, x => x % 256 :: leBytes n (x / 256)

/-- MD5 padding: `0x80`, zeros to 56 mod 64, then the 64-bit bit length. -/
def pad (msg : List Nat) : List Nat :=
  let len := msg.length
  msg ++ 0x80 :: List.replicate ((119 - len % 64) % 64) 0
      ++ leBytes 8 ((len * 8) % (m32 * m32))

/-- The 16-byte MD5 digest of a byte list. -/
def digest (msg : List Nat) : List Nat :=
  let p := pad msg
  let r := ((chunks64 (p.length / 64) p).map toWords).foldl block init
  leBytes 4 r.a ++ leBytes 4 r.b ++ leBytes 4 r.c ++ leBytes 4 r.d

/-- Lowercase hexadecimal digit. -/
def hexDigit (n : Nat) : Char :=
  "0123456789abcdef".data.getD n '0'

/-- Two lowercase hex digits of one byte. -/
def hexByte (b : Nat) : List Char :=
  [hexDigit (b / 16), hexDigit (b % 16)]

/-- The byte encoding of an ASCII string; agrees with Python's
`str.encode()` (UTF-8) on ASCII input. -/
def asciiBytes (s : String) : List Nat := s.data.map Char.toNat

/-- Model of Python's `hashlib.md5(s.encode()).hexdigest()` for ASCII `s`. -/
def hexdigest (s : String) : String :=
  ⟨((digest (asciiBytes s)).map hexByte).flatten⟩

end MD5

example : MD5.hexdigest "abc" = "900150983cd24fb0d6963f7d28e17f72" := by decide

example : MD5.hexdigest "http://x.com/a.png?v=81613" = "a26bd2c52270d56494be91f1de802388" := by decide
example : MD5.hexdigest "http://x.com/a.png?v=113368" = "a26bd2c5ece495b41a288a4a43459bdb" := by decide

namespace Py

/-- `startsWithList l p`: `p` is a prefix of `l` (kernel-reducible). -/
def startsWithList : List Char → List Char → Bool
  | _, [] => true
  | [], _ :: _ => false
  | x :: xs, y :: ys => x = y && startsWithList xs ys

/-- Python `s.startswith(pre)` (kernel-reducible `String.startsWith`). -/
def startsWith (s pre : String) : Bool := startsWithList s.data pre.data

/-- Python `s.endswith(suf)` (kernel-reducible `String.endsWith`). -/
def endsWith (s suf : String) : Bool :=
  startsWithList s.data.reverse suf.data.reverse

/-- Split a character list on a separator character. -/
def splitCharAux (c : Char) : List Char → List (List Char)
  | [] => [[]]
  | x :: xs =>
    let r := splitCharAux c xs
    if x = c then [] :: r
    else
      match r with
      | [] => [[x]]
      | h :: t => (x :: h) :: t

/-- Python `s.split(c)` for a single-character separator. -/
def splitOnChar (s : String) (c : Char) : List String :=
  (splitCharAux c s.data).map fun l => ⟨l⟩

/-- Python `sep.join(parts)` (kernel-reducible `String.intercalate`). -/
def intercalate (sep : String) : List String → String
  | [] => ""
  | [a] => a
  | a :: rest => a ++ sep ++ intercalate sep rest

/-- Index of the first occurrence of `c` (Python `str.find` when present). -/
def idxOf : List Char → Char → Option Nat
  | [], _ => none
  | x :: xs, c => if x = c then some 0 else (idxOf xs c).map (· + 1)

/-- Index of the last occurrence of `c` (Python `str.rfind` when present). -/
def rIdxOf (l : List Char) (c : Char) : Option Nat :=
  match l with
  | [] => none
  | x :: xs =>
    match rIdxOf xs c with
    | some i => some (i + 1)
    | none => if x = c then some 0 else none

/-- Split at the first occurrence of `c` (Python `s.split(c, 1)` when `c` occurs). -/
def breakAt (c : Char) : List Char → Option (List Char × List Char)
  | [] => none
  | x :: xs =>
    if x = c then some ([], xs)
    else (breakAt c xs).map (fun p => (x :: p.1, p.2))

/-- Python `s.strip(c)` for a single strip character. -/
def stripChar (s : String) (c : Char) : String :=
  ⟨((s.data.dropWhile (· = c)).reverse.dropWhile (· = c)).reverse⟩

/-- Python `s.lstrip(c)` for a single strip character. -/
def lstripChar (s : String) (c : Char) : String :=
  ⟨s.data.dropWhile (· = c)⟩

/-- Python `s.strip()` (whitespace on both ends). -/
def strip (s : String) : String :=
  ⟨((s.data.dropWhile Char.isWhitespace).reverse.dropWhile Char.isWhitespace).reverse⟩

/-- Python `s.rsplit(c, 1)`. -/
def rsplitOnce (s : String) (c : Char) : List String :=
  match rIdxOf s.data c with
  | none => [s]
  | some i => [⟨s.data.take i⟩, ⟨s.data.drop (i + 1)⟩]

/-- Python `s.replace(a, b)` for single-character `a`, `b`. -/
def replaceChar (s : String) (a b : Char) : String :=
  ⟨s.data.map fun c => if c = a then b else c⟩

/-- Python `os.path.basename` (POSIX separators). -/
def basename (p : String) : String :=
  match rIdxOf p.data '/' with
  | none => p
  | some i => ⟨p.data.drop (i + 1)⟩

/-- Python `os.path.dirname` (POSIX separators). -/
def dirname (p : String) : String :=
  match rIdxOf p.data '/' with
  | none => ""
  | some i =>
    let head := p.data.take (i + 1)
    if head.all (· = '/') then ⟨head⟩
    else ⟨(head.reverse.dropWhile (· = '/')).reverse⟩

/-- Python `os.path.splitext` (POSIX separators): the extension starts at the
last dot of the basename unless every earlier basename character is a dot. -/
def splitext (p : String) : String × String :=
  let l := p.data
  let s := match rIdxOf l '/' with | none => 0 | some i => i + 1
  match rIdxOf l '.' with
  | none => (p, "")
  | some d =>
    if s ≤ d ∧ ((l.drop s).take (d - s)).any (· ≠ '.') then
      (⟨l.take d⟩, ⟨l.drop d⟩)
    else (p, "")

/-- Python `os.path.join` for two components (POSIX separators). -/
def join2 (a b : String) : String :=
  if startsWith b "/" then b
  else if a = "" ∨ endsWith a "/" then a ++ b
  else a ++ "/" ++ b

/-- Python `os.path.join` for three components. -/
def join3 (a b c : String) : String := join2 (join2 a b) c

/-- Length of the common prefix of two component lists. -/
def commonLen : List String → List String → Nat
  | a :: as, b :: bs => if a = b then commonLen as bs + 1 else 0
  | _, _ => 0

/-- Python `os.path.relpath(path, start)` for dot-free relative POSIX paths
(both interpreted below the same working directory, so `abspath` contributes
an identical prefix that cancels out). -/
def relpath (path start : String) : String :=
  let pl := (splitOnChar path '/').filter (· ≠ "")
  let sl := (splitOnChar start '/').filter (· ≠ "")
  let i := commonLen pl sl
  let rel := List.replicate (sl.length - i) ".." ++ pl.drop i
  if rel = [] then "." else intercalate "/" rel

/-- The result record of Python `urllib.parse.urlparse`. -/
structure UrlParts where
  scheme : String
  netloc : String
  path : String
  params : String
  query : String
  fragment : String
deriving DecidableEq, Repr

/-- Characters allowed in a URL scheme after the first letter. -/
def isSchemeChar (c : Char) : Bool :=
  c.isAlphanum ∨ c = '+' ∨ c = '-' ∨ c = '.'

/-- Index of the first character of `l` that occurs in `cs` (or `l.length`). -/
def firstIdxOfAny (l : List Char) (cs : List Char) : Nat :=
  match l with
  | [] => 0
  | x :: xs => if cs.contains x then 0 else firstIdxOfAny xs cs + 1

/-- The schemes for which `urlparse` splits `;`-parameters
(`urllib.parse.uses_params`). -/
def usesParams : List String :=
  ["", "ftp", "hdl", "prospero", "http", "imap", "https", "shttp", "rtsp",
   "rtspu", "sip", "sips", "mms", "sftp", "tel"]

/-- The schemes that allow relative resolution (`urllib.parse.uses_relative`). -/
def usesRelative : List String :=
  ["", "ftp", "http", "gopher", "nntp", "imap", "wais", "file", "https",
   "shttp", "mms", "prospero", "rtsp", "rtspu", "sftp", "svn", "svn+ssh",
   "ws", "wss"]

/-- The schemes that use a network location (`urllib.parse.uses_netloc`). -/
def usesNetloc : List String :=
  ["", "ftp", "http", "gopher", "nntp", "telnet", "imap", "wais", "file",
   "mms", "https", "shttp", "snews", "prospero", "rtsp", "rtspu", "rsync",
   "svn", "svn+ssh", "sftp", "nfs", "git", "git+ssh", "ws", "wss",
   "itms-services"]

/-- Python `urllib.parse._splitparams` (caller guarantees `;` occurs). -/
def splitparams (path : List Char) : List Char × List Char :=
  let split : Nat → List Char × List Char := fun i => (path.take i, path.drop (i + 1))
  if path.contains '/' then
    let r := match rIdxOf path '/' with | none => 0 | some i => i
    match idxOf (path.drop r) ';' with
    | none => (path, [])
    | some j => split (r + j)
  else
    match idxOf path ';' with
    | none => (path, [])
    | some i => split i

/-- Python `urllib.parse.urlparse(url, defScheme)` (input assumed free of the
control characters CPython strips beforehand). -/
def urlparse (url : String) (defScheme : String := "") : UrlParts :=
  let l := url.data
  let schemeRest : String × List Char :=
    match idxOf l ':' with
    | some i =>
      if 0 < i ∧ (l.take i).all isSchemeChar ∧ (l.headD ' ').isAlpha then
        (⟨(l.take i).map Char.toLower⟩, l.drop (i + 1))
      else (defScheme, l)
    | none => (defScheme, l)
  let scheme := schemeRest.1
  let rest := schemeRest.2
  let netlocRest : String × List Char :=
    if rest.take 2 = ['/', '/'] then
      let after := rest.drop 2
      let delim := firstIdxOfAny after ['/', '?', '#']
      (⟨after.take delim⟩, after.drop delim)
    else ("", rest)
  let netloc := netlocRest.1
  let rest2 := netlocRest.2
  let fragSplit : List Char × List Char :=
    match breakAt '#' rest2 with
    | some (a, b) => (a, b)
    | none => (rest2, [])
  let querySplit : List Char × List Char :=
    match breakAt '?' fragSplit.1 with
    | some (a, b) => (a, b)
    | none => (fragSplit.1, [])
  let rawPath := querySplit.1
  let pathParams : List Char × List Char :=
    if usesParams.contains scheme ∧ rawPath.contains ';' then splitparams rawPath
    else (rawPath, [])
  ⟨scheme, netloc, ⟨pathParams.1⟩, ⟨pathParams.2⟩, ⟨querySplit.2⟩, ⟨fragSplit.2⟩⟩

/-- Python `urllib.parse.urlunsplit`. -/
def urlunsplit (scheme netloc url query fragment : String) : String :=
  let u1 :=
    if netloc ≠ "" ∨ (url ≠ "" ∧ startsWith url "//") then
      "//" ++ netloc ++ (if url ≠ "" ∧ ¬startsWith url "/" then "/" ++ url else url)
    else url
  let u2 := if scheme ≠ "" then scheme ++ ":" ++ u1 else u1
  let u3 := if query ≠ "" then u2 ++ "?" ++ query else u2
  if fragment ≠ "" then u3 ++ "#" ++ fragment else u3

/-- Python `urllib.parse.urlunparse`. -/
def urlunparse (u : UrlParts) : String :=
  urlunsplit u.scheme u.netloc
    (if u.params ≠ "" then u.path ++ ";" ++ u.params else u.path)
    u.query u.fragment

/-- `segments[1:-1] = filter(None, segments[1:-1])` from `urljoin`. -/
def filterMid (l : List String) : List String :=
  match l with
  | [] => []
  | [a] => [a]
  | a :: rest => a :: (rest.dropLast.filter (· ≠ "") ++ [rest.getLastD ""])

/-- The `..`/`.` resolution loop of `urljoin`. -/
def resolveSegs (segs : List String) : List String :=
  segs.foldl
    (fun acc seg =>
      if seg = ".." then acc.dropLast
      else if seg = "." then acc
      else acc ++ [seg]) []

/-- Python `urllib.parse.urljoin`. -/
def urljoin (base url : String) : String :=
  if base = "" then url
  else if url = "" then base
  else
    let b := urlparse base
    let u := urlparse url b.scheme
    if u.scheme ≠ b.scheme ∨ ¬usesRelative.contains u.scheme then url
    else
      let netlocKnown := usesNetloc.contains u.scheme ∧ u.netloc ≠ ""
      if netlocKnown then urlunparse u
      else
        let netloc := if usesNetloc.contains u.scheme then b.netloc else u.netloc
        if u.path = "" ∧ u.params = "" then
          urlunparse ⟨u.scheme, netloc, b.path, b.params,
            (if u.query = "" then b.query else u.query), u.fragment⟩
        else
          let baseParts :=
            let bp := splitOnChar b.path '/'
            if bp.getLastD "" ≠ "" then bp.dropLast else bp
          let segments :=
            if startsWith u.path "/" then splitOnChar u.path '/'
            else filterMid (baseParts ++ splitOnChar u.path '/')
          let resolved :=
            let r := resolveSegs segments
            if segments.getLastD "" = "." ∨ segments.getLastD "" = ".." then
              r ++ [""]
            else r
          let joined := intercalate "/" resolved
          urlunparse ⟨u.scheme, netloc, (if joined = "" then "/" else joined),
            u.params, u.query, u.fragment⟩

end Py

example : Py.urlparse "https://x.com/a#frag1" =
    ⟨"https", "x.com", "/a", "", "", "frag1"⟩ := by decide
example : Py.urlparse "http://x.com/a.png?v=81613" =
    ⟨"http", "x.com", "/a.png", "", "v=81613", ""⟩ := by decide
example : Py.urljoin "https://x.com/p/q" "r.css" = "https://x.com/p/r.css" := by decide
example : Py.urljoin "https://x.com/p/q" "/a/b" = "https://x.com/a/b" := by decide
example : Py.urljoin "https://x.com/" "https://x.com/a.js" = "https://x.com/a.js" := by decide
example : Py.relpath "scraped_website/assets/js/x.js" "scraped_website/b/c" =
    "../../assets/js/x.js" := by decide
example : Py.splitext "a..b" = ("a.", ".b") := by decide
example : Py.splitext "...." = ("....", "") := by decide
example : Py.join3 "out" "" "index.html" = "out/index.html" := by decide
example : Py.dirname "/a" = "/" := by decide

namespace SE

/-- The configuration fields of `RecursiveWebsiteScraper` that the embedded
methods read (`base_scheme`, `base_domain`, `output_dir`). -/
structure Config where
  baseScheme : String
  baseDomain : String
  outputDir : String
deriving DecidableEq, Repr

/-- The `downloaded_resources` dict (URL → local path), in insertion order. -/
def lookupRes : List (String × String) → String → Option String
  | [], _ => none
  | (k, v) :: rest, key => if k = key then some v else lookupRes rest key

/-- `RecursiveWebsiteScraper.is_same_domain`. -/
def is_same_domain (cfg : Config) (url : String) : Bool :=
  let parsed := Py.urlparse url
  parsed.netloc = cfg.baseDomain ∨ parsed.netloc = ""

/-- `RecursiveWebsiteScraper.normalize_url`: drop the fragment, then drop a
trailing slash unless the result is the configured domain root. -/
def normalize_url (cfg : Config) (url : String) : String :=
  let parsed := Py.urlparse url
  let normalized := Py.urlunparse
    ⟨parsed.scheme, parsed.netloc, parsed.path, parsed.params, parsed.query, ""⟩
  if Py.endsWith normalized "/" ∧
      normalized ≠ cfg.baseScheme ++ "://" ++ cfg.baseDomain ++ "/" then
    ⟨normalized.data.dropLast⟩
  else normalized

/-- `RecursiveWebsiteScraper.get_url_hash`: first 8 hex chars of the MD5. -/
def get_url_hash (url : String) : String :=
  ⟨(MD5.hexdigest url).data.take 8⟩

/-- `re.sub(r'[<>:"|?*]', '_', filename)`. -/
def sanitize (s : String) : String :=
  ⟨s.data.map fun c =>
    if c = '<' ∨ c = '>' ∨ c = ':' ∨ c = '"' ∨ c = '|' ∨ c = '?' ∨ c = '*'
    then '_' else c⟩

/-- Lowercase an ASCII string (Python `str.lower`). -/
def toLowerStr (s : String) : String := ⟨s.data.map Char.toLower⟩

/-- The image extensions recognized by `get_local_path`. -/
def imageExts : List String := [".jpg", ".jpeg", ".png", ".gif", ".svg", ".webp", ".ico"]

/-- The font extensions recognized by `get_local_path`. -/
def fontExts : List String := [".woff", ".woff2", ".ttf", ".eot", ".otf"]

/-- The `(name, ext)` pair computed by the asset branch of `get_local_path`
(basename of the URL path or `resource`, sanitized, with the extension
defaulted from the resource type when missing). -/
def assetNameExt (resourceType url : String) : String × String :=
  let parsed := Py.urlparse url
  let filename0 := if Py.basename parsed.path = "" then "resource" else Py.basename parsed.path
  let filename := sanitize filename0
  let ne := Py.splitext filename
  let ext :=
    if ne.2 = "" then
      if resourceType = "css" then ".css"
      else if resourceType = "js" then ".js"
      else ne.2
    else ne.2
  (ne.1, ext)

/-- The category subdirectory chosen by the asset branch of `get_local_path`. -/
def assetSubdir (resourceType ext : String) : String :=
  let extLower := toLowerStr ext
  if resourceType = "css" ∨ extLower = ".css" then "assets/css"
  else if resourceType = "js" ∨ extLower = ".js" then "assets/js"
  else if imageExts.contains extLower then "assets/images"
  else if fontExts.contains extLower then "assets/fonts"
  else "assets/other"

/-- `RecursiveWebsiteScraper.get_local_path` (lines 84–149): return the
memoized path if the URL was recorded in `downloaded_resources`, else compute
a path from the URL alone (this method itself never writes the dict). -/
def get_local_path (cfg : Config) (res : List (String × String))
    (url : String) (resourceType : String := "other") : String :=
  match lookupRes res url with
  | some p => p
  | none =>
    let parsed := Py.urlparse url
    if resourceType = "html" then
      let path := Py.stripChar parsed.path '/'
      let localPath :=
        if path = "" ∨ Py.endsWith path "/" then
          Py.join3 cfg.outputDir path "index.html"
        else if (Py.splitext path).2 = "" then
          Py.join3 cfg.outputDir path "index.html"
        else if ¬Py.endsWith path ".html" ∧ ¬Py.endsWith path ".htm" then
          Py.join2 cfg.outputDir (path ++ ".html")
        else
          Py.join2 cfg.outputDir path
      if parsed.query ≠ "" then
        let urlHash := get_url_hash url
        let dirPath := Py.dirname localPath
        let baseName := (Py.splitext (Py.basename localPath)).1
        Py.join2 dirPath (baseName ++ "_" ++ urlHash ++ ".html")
      else localPath
    else
      let ne := assetNameExt resourceType url
      let subdir := assetSubdir resourceType ne.2
      let urlHash := get_url_hash url
      Py.join3 cfg.outputDir subdir (ne.1 ++ "_" ++ urlHash ++ ne.2)

end SE

example : SE.get_local_path ⟨"https", "x.com", "scraped_website"⟩ [] "https://x.com/" "html"
    = "scraped_website/index.html" := by decide
example : SE.get_local_path ⟨"https", "x.com", "scraped_website"⟩ [] "https://x.com/a" "html"
    = "scraped_website/a/index.html" := by decide
example : SE.get_local_path ⟨"https", "x.com", "scraped_website"⟩ [] "https://x.com/a.php?id=1" "html"
    = "scraped_website/a.php_0fe8a20e.html" := by decide
example : SE.get_local_path ⟨"https", "x.com", "scraped_website"⟩ [] "https://cdn.x.com/style" "css"
    = "scraped_website/assets/css/style_c9344bb8.css" := by decide
example : SE.get_local_path ⟨"https", "x.com", "scraped_website"⟩ [] "http://x.com/a.png?v=81613" "images"
    = "scraped_website/assets/images/a_a26bd2c5.png" := by decide
example : SE.normalize_url ⟨"https", "x.com", "out"⟩ "https://x.com/a/"
    = "https://x.com/a" := by decide
example : SE.normalize_url ⟨"https", "x.com", "out"⟩ "https://x.com/"
    = "https://x.com/" := by decide

namespace SE

/-- Python's `\s` class as matched by the CSS `url(...)` pattern. -/
def isPySpace (c : Char) : Bool :=
  c = ' ' ∨ c = '\t' ∨ c = '\n' ∨ c = '\x0d' ∨ c = '\x0c' ∨ c = '\x0b'

/-- A character admissible inside the captured group of
`url\([\'"]?([^\'")\s]+)[\'"]?\)`. -/
def isUrlBody (c : Char) : Bool :=
  ¬(c = '\'' ∨ c = '"' ∨ c = ')' ∨ isPySpace c)

/-- Match the regex `url\([\'"]?([^\'")\s]+)[\'"]?\)` at the head of `l`;
returns the captured group and the total matched length. -/
def matchUrlAt (l : List Char) : Option (List Char × Nat) :=
  if Py.startsWithList l ['u', 'r', 'l', '('] then
    let after := l.drop 4
    let hasQ : Bool :=
      match after with
      | c :: _ => c = '\'' ∨ c = '"'
      | [] => false
    let body := if hasQ then after.drop 1 else after
    let run := body.takeWhile isUrlBody
    if run.length = 0 then none
    else
      let rest1 := body.drop run.length
      let pre := 4 + (if hasQ then 1 else 0) + run.length
      match rest1 with
      | ')' :: _ => some (run, pre + 1)
      | c :: ')' :: _ => if c = '\'' ∨ c = '"' then some (run, pre + 2) else none
      | _ => none
  else none

/-- `re.sub` over the `url(...)` pattern with a state-threading replacement
function (the replacement receives the whole match and the captured group).
`fuel ≥ length of the input` makes the scan exact. -/
def resubUrlAux {σ : Type} (repl : σ → List Char → List Char → σ × List Char) :
    Nat → σ → List Char → σ × List Char
  | 0, st, l => (st, l)
  | _ + 1, st, [] => (st, [])
  | fuel + 1, st, x :: xs =>
    match matchUrlAt (x :: xs) with
    | some (cap, n) =>
      let r := repl st ((x :: xs).take n) cap
      let o := resubUrlAux repl fuel r.1 ((x :: xs).drop n)
      (o.1, r.2 ++ o.2)
    | none =>
      let o := resubUrlAux repl fuel st xs
      (o.1, x :: o.2)

/-- `re.sub(url_pattern, repl, l)` with state threading. -/
def resubUrl {σ : Type} (repl : σ → List Char → List Char → σ × List Char)
    (st : σ) (l : List Char) : σ × List Char :=
  resubUrlAux repl l.length st l

/-- The `replace_url` closure of `RecursiveWebsiteScraper.process_css`
(lines 155–177): pass `data:` URIs through, reuse a memoized path, otherwise
allocate and fetch, keeping the original text of the match if the fetch
fails. -/
def replace_url (cfg : Config) (fetchOk : String → Bool)
    (css_url css_local_path : String)
    (st : List (String × String)) (whole cap : List Char) :
    List (String × String) × List Char :=
  let resource_url : String := ⟨cap⟩
  if Py.startsWith resource_url "data:" then (st, whole)
  else
    let abs_url := Py.urljoin css_url resource_url
    let rel := fun (lp : String) =>
      ("url(" ++ Py.replaceChar (Py.relpath lp (Py.dirname css_local_path)) '\\' '/' ++ ")").data
    match lookupRes st abs_url with
    | some lp => (st, rel lp)
    | none =>
      let lp := get_local_path cfg st abs_url "other"
      if fetchOk abs_url then (st ++ [(abs_url, lp)], rel lp)
      else (st, whole)

/-- `RecursiveWebsiteScraper.process_css`: rewrite every `url(...)` reference
of a stylesheet, threading the `downloaded_resources` dict. -/
def process_css (cfg : Config) (fetchOk : String → Bool)
    (res : List (String × String)) (css_url css_local_path css : String) :
    String × List (String × String) :=
  let r := resubUrl (replace_url cfg fetchOk css_url css_local_path) res css.data
  (⟨r.2⟩, r.1)

/-- One iteration of the `<script src=…>` loop of
`RecursiveWebsiteScraper.process_page` (lines 254–266): resolve, memoize or
allocate+fetch, then rewrite the attribute to the page-relative path
(the rewrite is unconditional in the source). Returns the new attribute
value and the updated `downloaded_resources`. -/
def processScriptTag (cfg : Config) (fetchOk : String → Bool)
    (res : List (String × String)) (pageUrl pageDir src : String) :
    String × List (String × String) :=
  let js_url := Py.urljoin pageUrl src
  let hit :=
    match lookupRes res js_url with
    | some p => (p, res)
    | none =>
      let lp := get_local_path cfg res js_url "js"
      if fetchOk js_url then (lp, res ++ [(js_url, lp)]) else (lp, res)
  let rel := Py.replaceChar (Py.relpath hit.1 pageDir) '\\' '/'
  (rel, hit.2)

/-- The whole `<script src=…>` loop: every script tag of the page is
processed in order, regardless of fetch failures. -/
def processScripts (cfg : Config) (fetchOk : String → Bool)
    (res : List (String × String)) (pageUrl pageDir : String)
    (srcs : List String) : List String × List (String × String) :=
  srcs.foldl
    (fun acc src =>
      let r := processScriptTag cfg fetchOk acc.2 pageUrl pageDir src
      (acc.1 ++ [r.1], r.2))
    ([], res)

/-- One entry of the `srcset` loop of `RecursiveWebsiteScraper.process_page`
(lines 287–307): strip, split off the descriptor at the last blank,
resolve/allocate/fetch the URL, and emit `"<relative path> <descriptor>"`
(stripped); empty entries are skipped. -/
def processSrcsetPart (cfg : Config) (fetchOk : String → Bool)
    (pageUrl pageDir : String) (acc : List String × List (String × String))
    (part0 : String) : List String × List (String × String) :=
  let part := Py.strip part0
  if part = "" then acc
  else
    let sp := Py.rsplitOnce part ' '
    let img_url_part := sp.headD ""
    let descriptor := if sp.length > 1 then sp.getD 1 "" else ""
    let img_url := Py.urljoin pageUrl img_url_part
    let hit :=
      match lookupRes acc.2 img_url with
      | some p => (p, acc.2)
      | none =>
        let lp := get_local_path cfg acc.2 img_url "images"
        if fetchOk img_url then (lp, acc.2 ++ [(img_url, lp)]) else (lp, acc.2)
    let rel := Py.replaceChar (Py.relpath hit.1 pageDir) '\\' '/'
    (acc.1 ++ [Py.strip (rel ++ " " ++ descriptor)], hit.2)

/-- The `srcset` rewriting of `RecursiveWebsiteScraper.process_page`
(lines 285–310): split on commas, process every entry, and re-join with
`", "`; if no entry survived, the attribute is left unchanged. -/
def processSrcset (cfg : Config) (fetchOk : String → Bool)
    (res : List (String × String)) (pageUrl pageDir srcset : String) :
    String × List (String × String) :=
  let r := (Py.splitOnChar srcset ',').foldl
    (processSrcsetPart cfg fetchOk pageUrl pageDir) ([], res)
  (if r.1 ≠ [] then Py.intercalate ", " r.1 else srcset, r.2)

end SE

example :
    SE.process_css ⟨"https", "x.com", "out"⟩ (fun _ => true) []
      "https://x.com/css/a.css" "out/assets/css/a_11111111.css"
      "body background: url('/bg.png') end" =
    ("body background: url(../images/bg_cbd01d35.png) end",
     [("https://x.com/bg.png", "out/assets/images/bg_cbd01d35.png")]) := by
  decide

namespace SE

variable {α : Type} [DecidableEq α]

/-- One iteration of the `while` loop of `RecursiveWebsiteScraper.scrape`
(lines 360–383) on the state (visited list, pending queue): halt states are
fixed points; otherwise dequeue, discard if visited, else mark visited,
process the page (`g` is the set of same-domain normalized links a page
yields) and append every link not in the visited set. -/
def scrapeStep (g : α → List α) (cap : Nat) :
    List α × List α → List α × List α
  | (v, []) => (v, [])
  | (v, u :: rest) =>
    if v.length < cap then
      if u ∈ v then (v, rest)
      else
        let v' := v ++ [u]
        (v', rest ++ (g u).filter (fun l => ¬l ∈ v'))
    else (v, u :: rest)

/-- The `while` loop of `RecursiveWebsiteScraper.scrape` run to completion
for a configured page cap, returning the final visited list and the
abandoned queue. -/
def crawl (g : α → List α) (cap : Nat) (visited queue : List α) :
    List α × List α :=
  match queue with
  | [] => (visited, [])
  | u :: rest =>
    if _h : visited.length < cap then
      if u ∈ visited then crawl g cap visited rest
      else
        crawl g cap (visited ++ [u])
          (rest ++ (g u).filter (fun l => ¬l ∈ visited ++ [u]))
    else (visited, u :: rest)
termination_by (cap - visited.length, queue.length)
decreasing_by
  · exact Prod.Lex.right _ (Nat.lt_succ_self _)
  · apply Prod.Lex.left
    simp only [List.length_append, List.length_cons, List.length_nil]
    omega

/-- Reachability in the site graph along extracted links. -/
inductive Reaches (g : α → List α) (seed : α) : α → Prop
  | base : Reaches g seed seed
  | step {u v : α} : Reaches g seed u → v ∈ g u → Reaches g seed v

end SE

namespace WS

/-- The configuration fields of `WebsiteScraper` that the embedded methods
read (`output_dir`, `consolidate_assets`). -/
structure Config where
  outputDir : String
  consolidate : Bool
deriving DecidableEq, Repr

/-- Every character of `l` is a lowercase hex digit (`[a-f0-9]`). -/
def allHexLower (l : List Char) : Bool :=
  l.all fun c => ('a' ≤ c ∧ c ≤ 'f') ∨ ('0' ≤ c ∧ c ≤ '9')

/-- Leftmost match position of `[_-][a-f0-9]{6,}$`, if any. -/
def hashSuffixPos : List Char → Option Nat
  | [] => none
  | x :: xs =>
    if (x = '_' ∨ x = '-') ∧ allHexLower xs ∧ 6 ≤ xs.length then some 0
    else (hashSuffixPos xs).map (· + 1)

/-- `re.sub(r'[_-][a-f0-9]{6,}$', '', name)`. -/
def stripHashSuffix (s : String) : String :=
  match hashSuffixPos s.data with
  | none => s
  | some i => ⟨s.data.take i⟩

/-- `re.sub(r'\?v=[^&]*', '', name)` (fuel-exact for `fuel ≥ length`). -/
def removeVqAux : Nat → List Char → List Char
  | 0, l => l
  | _ + 1, [] => []
  | fuel + 1, x :: xs =>
    if Py.startsWithList (x :: xs) ['?', 'v', '='] then
      removeVqAux fuel (((x :: xs).drop 3).dropWhile (· ≠ '&'))
    else x :: removeVqAux fuel xs

/-- `re.sub(r'\?v=[^&]*', '', name)`. -/
def removeVq (s : String) : String := ⟨removeVqAux s.data.length s.data⟩

/-- `WebsiteScraper.normalize_filename` (lines 56–67). -/
def normalize_filename (filename : String) : String :=
  let ne := Py.splitext filename
  removeVq (stripHashSuffix ne.1) ++ ne.2

/-- The image-name counter loop of `WebsiteScraper.get_local_path`
(lines 108–114): try `name`, `name_1`, `name_2`, … until no already-recorded
path ends with the candidate. `fuel = number of recorded paths + 1` is
always sufficient, since distinct candidates are never suffixes of one
another and hence each recorded path can block at most one candidate. -/
def counterGo (paths : List String) (namePart extPart : String) :
    Nat → Nat → String → String
  | 0, _, test => test
  | fuel + 1, counter, test =>
    if paths.any (fun p => Py.endsWith p test) then
      counterGo paths namePart extPart fuel (counter + 1)
        (namePart ++ "_" ++ toString counter ++ extPart)
    else test

/-- `WebsiteScraper.get_local_path` (lines 69–129): memo lookup, else compute
a path (with the image-name counter for images, a URL-hash suffix otherwise)
and record it in `downloaded_files`. Returns the path and the updated dict. -/
def get_local_path (cfg : Config) (files : List (String × String))
    (url : String) (resourceType : String := "other") :
    String × List (String × String) :=
  match SE.lookupRes files url with
  | some p => (p, files)
  | none =>
    let parsed := Py.urlparse url
    let base_filename :=
      if Py.basename parsed.path = "" then "index.html" else Py.basename parsed.path
    let ne := Py.splitext base_filename
    let name := ne.1
    let ext :=
      if ne.2 = "" then
        if resourceType = "css" then ".css"
        else if resourceType = "js" then ".js"
        else ".html"
      else ne.2
    let extLower := SE.toLowerStr ext
    let subdir :=
      if resourceType = "css" ∨ extLower = ".css" then "css"
      else if resourceType = "js" ∨ extLower = ".js" then "js"
      else if SE.imageExts.contains extLower then "images"
      else if SE.fontExts.contains extLower then "fonts"
      else "other"
    let uniqueFilename :=
      if subdir = "images" then
        let nf := normalize_filename base_filename
        let nfe := Py.splitext nf
        counterGo (files.map (·.2)) nfe.1 nfe.2 (files.length + 1) 1 nf
      else if cfg.consolidate ∧ (subdir = "css" ∨ subdir = "js") then
        name ++ "_" ++ SE.get_url_hash url ++ ext
      else
        name ++ "_" ++ SE.get_url_hash url ++ ext
    let local_path := Py.join3 cfg.outputDir subdir uniqueFilename
    (local_path, files ++ [(url, local_path)])

end WS

namespace LS

/-- `requests.Response.raise_for_status` does not raise exactly when the
status code is outside `[400, 600)`. -/
def statusOk (s : Nat) : Bool := ¬(400 ≤ s ∧ s < 600)

/-- `LocalHtmlScraper.download_file` (lines 70–125), with the transport
abstracted: `r1` is the outcome of the first GET (`none` = transport error,
`some s` = a response with status `s`), `r2` the outcome of the second GET
issued only on a 403 first status, `writeOk` whether the filesystem writes
succeed. Returns success and the list of the timeouts of the GET attempts
actually made. -/
def download_file (r1 r2 : Option Nat) (writeOk : Bool) : Bool × List Nat :=
  match r1 with
  | none => (false, [30])
  | some s1 =>
    if s1 = 403 then
      match r2 with
      | none => (false, [30, 30])
      | some s2 => (statusOk s2 ∧ writeOk, [30, 30])
    else (statusOk s1 ∧ writeOk, [30])

end LS

namespace SE

/-- `RecursiveWebsiteScraper.download_file` (lines 65–82): one GET with
timeout 30, success only for a non-error status and a successful write. -/
def download_file (r1 : Option Nat) (writeOk : Bool) : Bool × List Nat :=
  match r1 with
  | none => (false, [30])
  | some s1 => (LS.statusOk s1 ∧ writeOk, [30])

end SE

namespace LF

/-- `LinkFixer.is_broken_link` (lines 29–76), over a filesystem-existence
oracle: `javascript:` is always broken; absolute-scheme, `mailto:`, `tel:`
and fragment links are always functional; slash-, `./`- or `../`-prefixed
links are broken when none of target, `target + ".html"`,
`target + "/index.html"` exists; other relative links are broken when
neither target nor `target + ".html"` exists. -/
def is_broken_link (fsExists : String → Bool) (directory href : String) : Bool :=
  if href = "" then false
  else if Py.startsWith href "javascript:" then true
  else if Py.startsWith href "http://" ∨ Py.startsWith href "https://" ∨
      Py.startsWith href "mailto:" ∨ Py.startsWith href "tel:" ∨
      Py.startsWith href "#" then false
  else if Py.startsWith href "/" ∨ Py.startsWith href "./" ∨
      Py.startsWith href "../" then
    let potential := Py.join2 directory (Py.lstripChar href '/')
    if fsExists potential then false
    else if fsExists (potential ++ ".html") then false
    else if fsExists (Py.join2 potential "index.html") then false
    else true
  else
    let potential := Py.join2 directory href
    if ¬fsExists potential ∧ ¬fsExists (potential ++ ".html") then true
    else false

/-- `LinkFixer.process_html_file` (lines 78–144), with the markup tree
abstracted to the list of its anchor `href` values and serialization to an
abstract function of the rewritten values. Returns the rewritten `href`s and
the file writes performed, in order (backup sidecar first when enabled). -/
def process_html_file (fsExists : String → Bool) (backup useLocal : Bool)
    (directory replacementUrl localFallback filePath content : String)
    (hrefs : List String) (serialize : List String → String) :
    List String × List (String × String) :=
  let replacement :=
    if useLocal then
      Py.replaceChar
        (Py.relpath (Py.join2 directory localFallback) (Py.dirname filePath))
        '\\' '/'
    else replacementUrl
  let newHrefs := hrefs.map fun h =>
    if is_broken_link fsExists directory h then replacement else h
  let linksFixed := (hrefs.filter fun h => is_broken_link fsExists directory h).length
  let writes :=
    if 0 < linksFixed then
      (if backup then [(filePath ++ ".backup", content)] else []) ++
        [(filePath, serialize newHrefs)]
    else []
  (newHrefs, writes)

end LF

example :
    ((SE.scrapeStep (fun n => if n = 0 then [1, 2] else if n ≤ 2 then [3] else [])
        10)^[3] ([], [0])).2 = [3, 3] := by decide
example : LS.download_file (some 403) (some 200) true = (true, [30, 30]) := by decide
example :
    LF.is_broken_link (fun _ => false) "site" "javascript:void(0)" = true := by decide
example :
    LF.is_broken_link (fun _ => false) "site" "#section" = false := by decide

/-- A string whose data starts with a character is not empty. -/
theorem mk_ne_empty (c : Char) (t : List Char) : (⟨c :: t⟩ : String) ≠ "" := by
  intro hc
  have hd : c :: t = ([] : List Char) := congrArg String.data hc
  cases hd

/-- A nonempty-pattern prefix forces the string's first character. -/
theorem startsWith_cons {s : String} {c : Char} {p : List Char}
    (h : Py.startsWith s ⟨c :: p⟩ = true) :
    ∃ t, s = ⟨c :: t⟩ ∧ Py.startsWithList t p = true := by
  obtain ⟨l⟩ := s
  cases l with
  | nil => simp [Py.startsWith, Py.startsWithList] at h
  | cons x xs =>
    simp only [Py.startsWith, Py.startsWithList, Bool.and_eq_true,
      decide_eq_true_eq] at h
    exact ⟨xs, by rw [h.1], h.2⟩

/-- C7: broken-link classification in repair mode: `javascript:` links are
always broken; `#` and `mailto:` links are always functional; a
slash-prefixed link none of whose three local resolutions exists is broken;
a `./`-prefixed link whose target exists is functional. -/
theorem C7_broken_link_classification (fs : String → Bool) (dir href : String) :
    (Py.startsWith href "javascript:" = true →
      LF.is_broken_link fs dir href = true) ∧
    (Py.startsWith href "#" = true ∨ Py.startsWith href "mailto:" = true →
      LF.is_broken_link fs dir href = false) ∧
    (Py.startsWith href "/" = true →
      fs (Py.join2 dir (Py.lstripChar href '/')) = false →
      fs (Py.join2 dir (Py.lstripChar href '/') ++ ".html") = false →
      fs (Py.join2 (Py.join2 dir (Py.lstripChar href '/')) "index.html") = false →
      LF.is_broken_link fs dir href = true) ∧
    (Py.startsWith href "./" = true →
      fs (Py.join2 dir (Py.lstripChar href '/')) = true →
      LF.is_broken_link fs dir href = false) := by
  refine ⟨?_, ?_, ?_, ?_⟩
  · intro h
    obtain ⟨t, rfl, -⟩ := startsWith_cons h
    have hne : (⟨'j' :: t⟩ : String) ≠ "" := mk_ne_empty _ _
    simp [LF.is_broken_link, hne, h]
  · rintro (h | h)
    · obtain ⟨t, rfl, -⟩ := startsWith_cons h
      have hja : Py.startsWith ⟨'#' :: t⟩ "javascript:" = false := rfl
      have hne : (⟨'#' :: t⟩ : String) ≠ "" := mk_ne_empty _ _
      simp [LF.is_broken_link, hne, hja, h]
    · obtain ⟨t, rfl, ht⟩ := startsWith_cons h
      have h1 : Py.startsWith ⟨'m' :: t⟩ "javascript:" = false := rfl
      have hne : (⟨'m' :: t⟩ : String) ≠ "" := mk_ne_empty _ _
      simp [LF.is_broken_link, hne, h1, h]
  · intro h h1 h2 h3
    obtain ⟨t, rfl, -⟩ := startsWith_cons h
    have hja : Py.startsWith ⟨'/' :: t⟩ "javascript:" = false := rfl
    have hh1 : Py.startsWith ⟨'/' :: t⟩ "http://" = false := rfl
    have hh2 : Py.startsWith ⟨'/' :: t⟩ "https://" = false := rfl
    have hh3 : Py.startsWith ⟨'/' :: t⟩ "mailto:" = false := rfl
    have hh4 : Py.startsWith ⟨'/' :: t⟩ "tel:" = false := rfl
    have hh5 : Py.startsWith ⟨'/' :: t⟩ "#" = false := rfl
    have hne : (⟨'/' :: t⟩ : String) ≠ "" := mk_ne_empty _ _
    simp [LF.is_broken_link, hne, hja, hh1, hh2, hh3, hh4, hh5, h, h1, h2, h3]
  · intro h h1
    obtain ⟨t, rfl, -⟩ := startsWith_cons h
    have hja : Py.startsWith ⟨'.' :: t⟩ "javascript:" = false := rfl
    have hh1 : Py.startsWith ⟨'.' :: t⟩ "http://" = false := rfl
    have hh2 : Py.startsWith ⟨'.' :: t⟩ "https://" = false := rfl
    have hh3 : Py.startsWith ⟨'.' :: t⟩ "mailto:" = false := rfl
    have hh4 : Py.startsWith ⟨'.' :: t⟩ "tel:" = false := rfl
    have hh5 : Py.startsWith ⟨'.' :: t⟩ "#" = false := rfl
    have hh6 : Py.startsWith ⟨'.' :: t⟩ "/" = false := rfl
    have hne : (⟨'.' :: t⟩ : String) ≠ "" := mk_ne_empty _ _
    simp [LF.is_broken_link, hne, hja, hh1, hh2, hh3, hh4, hh5, hh6, h, h1]

/-- Witness for C7 at the spec's own examples, over a one-file filesystem. -/
theorem C7_witness :
    LF.is_broken_link (fun p => p = "site/./about.html") "site" "javascript:void(0)" = true ∧
    LF.is_broken_link (fun p => p = "site/./about.html") "site" "#section" = false ∧
    LF.is_broken_link (fun p => p = "site/./about.html") "site" "mailto:a@b.com" = false ∧
    LF.is_broken_link (fun p => p = "site/./about.html") "site" "/desktop/slots/x" = true ∧
    LF.is_broken_link (fun p => p = "site/./about.html") "site" "./about.html" = false :=
  have f : String → Bool := fun p => p = "site/./about.html"
  ⟨(C7_broken_link_classification (fun p => p = "site/./about.html") "site" "javascript:void(0)").1 (by decide),
   (C7_broken_link_classification (fun p => p = "site/./about.html") "site" "#section").2.1 (Or.inl (by decide)),
   (C7_broken_link_classification (fun p => p = "site/./about.html") "site" "mailto:a@b.com").2.1 (Or.inr (by decide)),
   (C7_broken_link_classification (fun p => p = "site/./about.html") "site" "/desktop/slots/x").2.2.1
     (by decide) (by decide) (by decide) (by decide),
   (C7_broken_link_classification (fun p => p = "site/./about.html") "site" "./about.html").2.2.2
     (by decide) (by decide)⟩

/-- Python-dict lookup after recording `(u, v)`: the stored value wins,
falling back to `v` when `u` was not yet recorded. -/
theorem lookupRes_append_self (res : List (String × String)) (u v : String) :
    SE.lookupRes (res ++ [(u, v)]) u = some ((SE.lookupRes res u).getD v) := by
  induction res with
  | nil => simp [SE.lookupRes]
  | cons p rest ih =>
    obtain ⟨k, w⟩ := p
    by_cases hk : k = u <;> simp [SE.lookupRes, hk, ih]

/-- C9 (amended): `scrap-everything`'s fetcher makes exactly one GET attempt
(timeout 30) per call and fails on transport errors and error statuses
without retrying; `local_scraper`'s fetcher makes one attempt unless the
first response is a 403, in which case it retries exactly once with adjusted
headers (two attempts total). -/
theorem C9_fetch_attempts :
    (∀ (r : Option Nat) (w : Bool), (SE.download_file r w).2 = [30]) ∧
    (∀ (r1 r2 : Option Nat) (w : Bool),
      (LS.download_file r1 r2 w).2 = if r1 = some 403 then [30, 30] else [30]) ∧
    (∀ (w : Bool), (SE.download_file none w).1 = false) ∧
    (∀ (s : Nat) (w : Bool), LS.statusOk s = false →
      (SE.download_file (some s) w).1 = false) := by
  refine ⟨?_, ?_, ?_, ?_⟩
  · intro r w; cases r <;> simp [SE.download_file]
  · intro r1 r2 w
    cases r1 with
    | none => simp [LS.download_file]
    | some s =>
      by_cases h : s = 403
      · subst h; cases r2 <;> simp [LS.download_file]
      · simp [LS.download_file, h]
  · intro w; simp [SE.download_file]
  · intro s w h; simp [SE.download_file, h]

/-- Witness for C9 (amended) at status 404. -/
theorem C9_witness :
    LS.statusOk 404 = false ∧ (SE.download_file (some 404) true).1 = false :=
  ⟨by decide, C9_fetch_attempts.2.2.2 404 true (by decide)⟩

/-- Counterexample to C9 as stated: `local_scraper.download_file` issues two
GET attempts (and can even succeed on the retry) when the first response is
a 403 status. -/
theorem C9_counterexample :
    (LS.download_file (some 403) (some 200) true).2.length = 2 ∧
    (LS.download_file (some 403) (some 200) true).1 = true := by decide

/-- C10: the repair mode's frame property: a file none of whose links is
broken is neither rewritten nor given a backup sidecar; any write implies a
broken link was found; and when a broken link exists, the writes are exactly
the optional backup sidecar carrying the original content followed by the
rewritten file. -/
theorem C10_repair_frame (fs : String → Bool) (backup useLocal : Bool)
    (dir repl fb path content : String) (hrefs : List String)
    (serialize : List String → String) :
    ((∀ h ∈ hrefs, LF.is_broken_link fs dir h = false) →
      (LF.process_html_file fs backup useLocal dir repl fb path content hrefs
          serialize).2 = [] ∧
      (LF.process_html_file fs backup useLocal dir repl fb path content hrefs
          serialize).1 = hrefs) ∧
    ((LF.process_html_file fs backup useLocal dir repl fb path content hrefs
        serialize).2 ≠ [] →
      ∃ h ∈ hrefs, LF.is_broken_link fs dir h = true) ∧
    ((∃ h ∈ hrefs, LF.is_broken_link fs dir h = true) →
      (LF.process_html_file fs backup useLocal dir repl fb path content hrefs
          serialize).2 =
        (if backup then [(path ++ ".backup", content)] else []) ++
          [(path,
            serialize (LF.process_html_file fs backup useLocal dir repl fb path
              content hrefs serialize).1)]) := by
  refine ⟨?_, ?_, ?_⟩
  · intro hall
    have hf : hrefs.filter (fun h => LF.is_broken_link fs dir h) = [] := by
      simp only [List.filter_eq_nil_iff]
      intro a ha
      simp [hall a ha]
    have hm : hrefs.map
        (fun h => if LF.is_broken_link fs dir h then
          (if useLocal then
            Py.replaceChar
              (Py.relpath (Py.join2 dir fb) (Py.dirname path)) '\\' '/'
          else repl) else h) = hrefs := by
      rw [List.map_congr_left (g := id), List.map_id]
      intro a ha
      simp [hall a ha]
    simp [LF.process_html_file, hf, hm]
  · intro hw
    by_contra hno
    push_neg at hno
    have hall : ∀ h ∈ hrefs, LF.is_broken_link fs dir h = false := by
      intro a ha
      have := hno a ha
      revert this
      cases LF.is_broken_link fs dir a <;> simp
    have hf : hrefs.filter (fun h => LF.is_broken_link fs dir h) = [] := by
      simp only [List.filter_eq_nil_iff]
      intro a ha
      simp [hall a ha]
    apply hw
    simp [LF.process_html_file, hf]
  · rintro ⟨h, hm, hb⟩
    have hmem : h ∈ hrefs.filter (fun x => LF.is_broken_link fs dir x) :=
      List.mem_filter.mpr ⟨hm, hb⟩
    have hpos : 0 < (hrefs.filter (fun x => LF.is_broken_link fs dir x)).length :=
      List.length_pos.mpr (List.ne_nil_of_mem hmem)
    simp [LF.process_html_file, hpos]

/-- Witness for C10 on a file whose only link is a fragment link. -/
theorem C10_witness :
    (LF.process_html_file (fun _ => false) true false "site" "u" "index.html"
      "site/p.html" "c" ["#a"] (fun _ => "s")).2 = [] :=
  ((C10_repair_frame (fun _ => false) true false "site" "u" "index.html"
      "site/p.html" "c" ["#a"] (fun _ => "s")).1 (by decide)).1

/-- A memo hit short-circuits `scrap-everything`'s allocator. -/
theorem glp_of_lookup (cfg : SE.Config) {res : List (String × String)}
    {u : String} (t : String) {p : String} (h : SE.lookupRes res u = some p) :
    SE.get_local_path cfg res u t = p := by
  unfold SE.get_local_path
  rw [h]

/-- A memo hit short-circuits `scraper.py`'s allocator, leaving the dict
unchanged. -/
theorem wsglp_of_lookup (wcfg : WS.Config) {files : List (String × String)}
    {u : String} (t : String) {p : String} (h : SE.lookupRes files u = some p) :
    WS.get_local_path wcfg files u t = (p, files) := by
  unfold WS.get_local_path
  rw [h]

/-- On a memo miss, `scraper.py`'s allocator records the path it returns. -/
theorem ws_store (wcfg : WS.Config) {s : List (String × String)} {u : String}
    (t : String) (h : SE.lookupRes s u = none) :
    ∃ x, WS.get_local_path wcfg s u t = (x, s ++ [(u, x)]) := by
  unfold WS.get_local_path
  rw [h]
  exact ⟨_, rfl⟩

/-- C1 (amended): both allocators return the already-allocated path on a
second call for the same URL; in `scrap-everything` the computed path is
moreover independent of what else was allocated before. The consolidating
variant's image counter (see the counterexample) is why the corresponding
order-independence is dropped for `scraper.py`. -/
theorem C1_alloc_idempotent (cfg : SE.Config) (wcfg : WS.Config)
    (res s : List (String × String)) (u t : String) :
    (SE.lookupRes res u = none →
      SE.get_local_path cfg res u t = SE.get_local_path cfg [] u t) ∧
    (SE.get_local_path cfg (res ++ [(u, SE.get_local_path cfg res u t)]) u t =
      SE.get_local_path cfg res u t) ∧
    ((WS.get_local_path wcfg (WS.get_local_path wcfg s u t).2 u t).1 =
      (WS.get_local_path wcfg s u t).1) := by
  refine ⟨?_, ?_, ?_⟩
  · intro h
    simp [SE.get_local_path, h, SE.lookupRes]
  · cases hl : SE.lookupRes res u with
    | some p =>
      have hv := lookupRes_append_self res u (SE.get_local_path cfg res u t)
      rw [hl, Option.getD_some] at hv
      rw [glp_of_lookup cfg t hv, glp_of_lookup cfg t hl]
    | none =>
      have hv := lookupRes_append_self res u (SE.get_local_path cfg res u t)
      rw [hl, Option.getD_none] at hv
      exact glp_of_lookup cfg t hv
  · have hsome : SE.lookupRes (WS.get_local_path wcfg s u t).2 u =
        some (WS.get_local_path wcfg s u t).1 := by
      cases hl : SE.lookupRes s u with
      | some p =>
        rw [wsglp_of_lookup wcfg t hl]
        exact hl
      | none =>
        obtain ⟨x, hx⟩ := ws_store wcfg t hl
        rw [hx, lookupRes_append_self, hl, Option.getD_none]
    rw [wsglp_of_lookup wcfg t hsome]

/-- Witness for C1 (amended): a fresh allocation ignores unrelated memo
entries. -/
theorem C1_witness :
    SE.lookupRes [("k", "v")] "http://x.com/a.png" = none ∧
    SE.get_local_path ⟨"https", "x.com", "out"⟩ [("k", "v")]
        "http://x.com/a.png" "images" =
      SE.get_local_path ⟨"https", "x.com", "out"⟩ [] "http://x.com/a.png" "images" :=
  ⟨by decide,
   (C1_alloc_idempotent ⟨"https", "x.com", "out"⟩ ⟨"out", true⟩ [("k", "v")] []
      "http://x.com/a.png" "images").1 (by decide)⟩

/-- Counterexample to C1 as stated: in `scraper.py` the path an image URL
receives depends on the order in which other URLs were allocated before it —
`http://a.com/logo.png` gets `out/images/logo.png` when allocated first, but
`out/images/logo_1.png` when `http://b.com/logo.png` was allocated before
it. -/
theorem C1_counterexample :
    (WS.get_local_path ⟨"out", true⟩ [] "http://a.com/logo.png" "images").1 =
      "out/images/logo.png" ∧
    (WS.get_local_path ⟨"out", true⟩
        (WS.get_local_path ⟨"out", true⟩ [] "http://b.com/logo.png" "images").2
        "http://a.com/logo.png" "images").1 = "out/images/logo_1.png" ∧
    ("out/images/logo.png" : String) ≠ "out/images/logo_1.png" := by decide

/-- `scrapeStep` is the body of the `scrape` loop: every crawl state steps
through it (halt states are its fixed points). -/
theorem crawl_eq_step {α : Type} [DecidableEq α] (g : α → List α) (cap : Nat)
    (v q : List α) :
    SE.crawl g cap v q =
      SE.crawl g cap (SE.scrapeStep g cap (v, q)).1 (SE.scrapeStep g cap (v, q)).2 := by
  cases q with
  | nil =>
    have hs : SE.scrapeStep g cap (v, ([] : List α)) = (v, []) := rfl
    rw [hs]
  | cons u rest =>
    by_cases h : v.length < cap
    · by_cases hm : u ∈ v
      · have hs : SE.scrapeStep g cap (v, u :: rest) = (v, rest) := by
          simp [SE.scrapeStep, h, hm]
        rw [hs, SE.crawl]
        simp [h, hm]
      · have hs : SE.scrapeStep g cap (v, u :: rest) =
            (v ++ [u], rest ++ (g u).filter (fun l => ¬l ∈ v ++ [u])) := by
          simp [SE.scrapeStep, h, hm]
        rw [hs, SE.crawl]
        simp [h, hm]
    · have hs : SE.scrapeStep g cap (v, u :: rest) = (v, u :: rest) := by
        simp [SE.scrapeStep, h]
      rw [hs]

/-- C5 (amended): one scheduler step discards an already-visited dequeued
URL without processing; otherwise it marks the URL visited and enqueues
exactly the candidate links not already visited (queue membership is not
checked, so the pending queue can hold duplicates); the visited set never
acquires duplicates. -/
theorem C5_step_behavior {α : Type} [DecidableEq α] (g : α → List α)
    (cap : Nat) (v rest : List α) (u : α) (hcap : v.length < cap) :
    (u ∈ v → SE.scrapeStep g cap (v, u :: rest) = (v, rest)) ∧
    (u ∉ v → SE.scrapeStep g cap (v, u :: rest) =
      (v ++ [u], rest ++ (g u).filter (fun l => ¬l ∈ v ++ [u]))) ∧
    (v.Nodup → ((SE.scrapeStep g cap (v, u :: rest)).1).Nodup) := by
  refine ⟨?_, ?_, ?_⟩
  · intro hm
    simp [SE.scrapeStep, hcap, hm]
  · intro hm
    simp [SE.scrapeStep, hcap, hm]
  · intro hn
    by_cases hm : u ∈ v
    · simp [SE.scrapeStep, hcap, hm, hn]
    · simp [SE.scrapeStep, hcap, hm, List.nodup_append, hn]

/-- Witness for C5 (amended) on a two-node graph. -/
theorem C5_witness :
    ([0] : List Nat).length < 5 ∧
    (0 : Nat) ∈ [0] ∧
    SE.scrapeStep (fun _ : Nat => [1]) 5 ([0], [0, 1]) = ([0], [1]) :=
  ⟨by decide, by decide,
   (C5_step_behavior (fun _ : Nat => [1]) 5 [0] [1] 0 (by decide)).1 (by decide)⟩

/-- Counterexample to C5 as stated: starting from the seeded state on the
site graph `0 ↦ [1,2]`, `1 ↦ [3]`, `2 ↦ [3]`, three scheduler steps leave
the pending queue `[3, 3]`, in which URL 3 occurs twice (enqueueing checks
only the visited set, not queue membership). -/
theorem C5_counterexample :
    ((SE.scrapeStep (fun n : Nat => if n = 0 then [1, 2] else if n ≤ 2 then [3] else [])
        10)^[3] ([], [0])).2 = [3, 3] ∧
    ¬((SE.scrapeStep (fun n : Nat => if n = 0 then [1, 2] else if n ≤ 2 then [3] else [])
        10)^[3] ([], [0])).2.Nodup := by decide

/-- Counterexample to C2 as stated: the two distinct URLs
`http://x.com/a.png?v=81613` and `http://x.com/a.png?v=113368` share the
8-hex-character MD5 prefix `a26bd2c5`, so `scrap-everything`'s allocator
routes them to the same subdirectory with the *same* basename
`a_a26bd2c5.png` (the truncated hash suffix does not guarantee
uniqueness). -/
theorem C2_counterexample :
    ("http://x.com/a.png?v=81613" : String) ≠ "http://x.com/a.png?v=113368" ∧
    SE.get_local_path ⟨"https", "x.com", "scraped_website"⟩ []
        "http://x.com/a.png?v=81613" "images" =
      SE.get_local_path ⟨"https", "x.com", "scraped_website"⟩ []
        "http://x.com/a.png?v=113368" "images" ∧
    Py.basename (SE.get_local_path ⟨"https", "x.com", "scraped_website"⟩ []
        "http://x.com/a.png?v=81613" "images") = "a_a26bd2c5.png" := by
  refine ⟨by decide, by decide, by decide⟩

/-- Counterexample to C3 as stated: in `process_page`, when the fetch of a
script fails the `src` attribute is still rewritten to the allocated (and
missing) local relative path instead of keeping the original reference. -/
theorem C3_counterexample :
    (SE.processScriptTag ⟨"https", "x.com", "scraped_website"⟩ (fun _ => false)
        [] "https://x.com/" "scraped_website" "https://x.com/a.js").1 =
      "assets/js/a_d1f6eab9.js" ∧
    (SE.processScriptTag ⟨"https", "x.com", "scraped_website"⟩ (fun _ => false)
        [] "https://x.com/" "scraped_website" "https://x.com/a.js").1 ≠
      "https://x.com/a.js" ∧
    (SE.processScriptTag ⟨"https", "x.com", "scraped_website"⟩ (fun _ => false)
        [] "https://x.com/" "scraped_website" "https://x.com/a.js").2 = [] := by
  refine ⟨by decide, by decide, by decide⟩

/-- Rebuilding a string from its character data is the identity. -/
theorem string_mk_data (s : String) : (⟨s.data⟩ : String) = s := by
  obtain ⟨l⟩ := s
  rfl

/-- With an everywhere-failing fetcher and an empty memo, `replace_url`
keeps the original matched text and does not touch the dict. -/
theorem replace_url_fail (cfg : SE.Config) (cu clp : String)
    (w c : List Char) :
    SE.replace_url cfg (fun _ => false) cu clp [] w c = ([], w) := by
  unfold SE.replace_url
  by_cases hd : Py.startsWith ⟨c⟩ "data:" = true
  · simp [hd]
  · simp [hd, SE.lookupRes]

/-- With an everywhere-failing fetcher and an empty memo, the `url(...)`
rewriting scan is the identity on the stylesheet text. -/
theorem resub_fail (cfg : SE.Config) (cu clp : String) :
    ∀ (fuel : Nat) (l : List Char),
      SE.resubUrlAux (SE.replace_url cfg (fun _ => false) cu clp) fuel [] l =
        ([], l) := by
  intro fuel
  induction fuel with
  | zero => intro l; rfl
  | succ fuel ih =>
    intro l
    cases l with
    | nil => rfl
    | cons x xs =>
      cases hm : SE.matchUrlAt (x :: xs) with
      | none =>
        simp only [SE.resubUrlAux, hm]
        rw [ih]
      | some pr =>
        obtain ⟨cap, n⟩ := pr
        simp only [SE.resubUrlAux, hm]
        rw [replace_url_fail, ih]
        simp [List.take_append_drop]

/-- C3 (amended): a failed fetch never aborts processing and never records
the resource as downloaded, and inside CSS `url(...)` rewriting the original
reference text is kept — but in `process_page` a failed reference is still
rewritten to the allocated (missing) local relative path rather than left
unchanged, and every reference of the page is processed regardless of
earlier failures. -/
theorem C3_failure_policy (cfg : SE.Config) (fetchOk : String → Bool)
    (res : List (String × String)) (cu clp css pageUrl pageDir src : String)
    (srcs : List String) :
    ((∀ u, fetchOk u = false) →
      SE.process_css cfg fetchOk [] cu clp css = (css, [])) ∧
    (fetchOk (Py.urljoin pageUrl src) = false →
      (SE.processScriptTag cfg fetchOk res pageUrl pageDir src).2 = res) ∧
    (fetchOk (Py.urljoin pageUrl src) = false →
      SE.lookupRes res (Py.urljoin pageUrl src) = none →
      (SE.processScriptTag cfg fetchOk res pageUrl pageDir src).1 =
        Py.replaceChar
          (Py.relpath (SE.get_local_path cfg res (Py.urljoin pageUrl src) "js")
            pageDir) '\\' '/') ∧
    ((SE.processScripts cfg fetchOk res pageUrl pageDir srcs).1.length =
      srcs.length) := by
  refine ⟨?_, ?_, ?_, ?_⟩
  · intro hfail
    have hfn : fetchOk = (fun _ => false) := funext hfail
    subst hfn
    unfold SE.process_css
    rw [show SE.resubUrl (SE.replace_url cfg (fun _ => false) cu clp) [] css.data =
        ([], css.data) from resub_fail cfg cu clp _ _]
  · intro hf
    cases hl : SE.lookupRes res (Py.urljoin pageUrl src) with
    | some p => simp [SE.processScriptTag, hl]
    | none => simp [SE.processScriptTag, hl, hf]
  · intro hf hl
    simp [SE.processScriptTag, hl, hf]
  · have key : ∀ (l : List String) (acc : List String × List (String × String)),
        ((l.foldl
          (fun acc src =>
            let r := SE.processScriptTag cfg fetchOk acc.2 pageUrl pageDir src
            (acc.1 ++ [r.1], r.2)) acc).1).length = acc.1.length + l.length := by
      intro l
      induction l with
      | nil => intro acc; simp
      | cons a l ih =>
        intro acc
        simp only [List.foldl_cons]
        rw [ih]
        simp only [List.length_append, List.length_cons, List.length_nil]
        omega
    unfold SE.processScripts
    rw [key srcs ([], res)]
    simp

/-- Witness for C3 (amended): an everywhere-failing fetch leaves a concrete
stylesheet byte-identical. -/
theorem C3_witness :
    SE.process_css ⟨"https", "x.com", "out"⟩ (fun _ => false) []
        "https://x.com/a.css" "out/assets/css/a_11111111.css"
        "body background: url(/bg.png) end" =
      ("body background: url(/bg.png) end", []) :=
  (C3_failure_policy ⟨"https", "x.com", "out"⟩ (fun _ => false) []
      "https://x.com/a.css" "out/assets/css/a_11111111.css"
      "body background: url(/bg.png) end" "" "" "" []).1 (fun _ => rfl)

namespace SE

/-- The fragment-stripping stage of `normalize_url`: re-serialize the parse
with an empty fragment. -/
def defragment (url : String) : String :=
  let parsed := Py.urlparse url
  Py.urlunparse
    ⟨parsed.scheme, parsed.netloc, parsed.path, parsed.params, parsed.query, ""⟩

end SE

/-- `normalize_url` is `defragment` followed by the trailing-slash rule. -/
theorem normalize_url_eq (cfg : SE.Config) (u : String) :
    SE.normalize_url cfg u =
      if Py.endsWith (SE.defragment u) "/" ∧
          SE.defragment u ≠ cfg.baseScheme ++ "://" ++ cfg.baseDomain ++ "/" then
        ⟨(SE.defragment u).data.dropLast⟩
      else SE.defragment u := rfl

/-- Appending `"/"` makes a string end with `"/"`. -/
theorem endsWith_append_slash (s : String) : Py.endsWith (s ++ "/") "/" = true := by
  have hd : (s ++ "/").data = s.data ++ ['/'] := by
    simp
  simp [Py.endsWith, hd, Py.startsWithList]

/-- Dropping the last character of `s ++ "/"` recovers `s`. -/
theorem dropLast_append_slash (s : String) :
    ((s ++ "/" : String).data.dropLast) = s.data := by
  have hd : (s ++ "/").data = s.data ++ ['/'] := by
    simp
  simp [hd]

/-- C6: `normalize_url` identifies fragment variants (two URLs parsing
identically except for the fragment normalize identically) and
trailing-slash variants (when stripping the fragment of one yields the other
plus a trailing slash and the result is not the configured domain root), and
on the spec's three examples all results coincide. -/
theorem C6_normalization (cfg : SE.Config) (u v : String) :
    ((Py.urlparse u).scheme = (Py.urlparse v).scheme →
      (Py.urlparse u).netloc = (Py.urlparse v).netloc →
      (Py.urlparse u).path = (Py.urlparse v).path →
      (Py.urlparse u).params = (Py.urlparse v).params →
      (Py.urlparse u).query = (Py.urlparse v).query →
      SE.normalize_url cfg u = SE.normalize_url cfg v) ∧
    (SE.defragment v = SE.defragment u ++ "/" →
      Py.endsWith (SE.defragment u) "/" = false →
      SE.defragment v ≠ cfg.baseScheme ++ "://" ++ cfg.baseDomain ++ "/" →
      SE.normalize_url cfg v = SE.normalize_url cfg u) ∧
    (SE.normalize_url ⟨"https", "x.com", "out"⟩ "https://x.com/a#frag1" =
        SE.normalize_url ⟨"https", "x.com", "out"⟩ "https://x.com/a#frag2" ∧
      SE.normalize_url ⟨"https", "x.com", "out"⟩ "https://x.com/a#frag2" =
        SE.normalize_url ⟨"https", "x.com", "out"⟩ "https://x.com/a/" ∧
      SE.normalize_url ⟨"https", "x.com", "out"⟩ "https://x.com/a#frag1" =
        "https://x.com/a") := by
  refine ⟨?_, ?_, by decide, by decide, by decide⟩
  · intro h1 h2 h3 h4 h5
    simp only [SE.normalize_url, h1, h2, h3, h4, h5]
  · intro hv hu hroot
    rw [normalize_url_eq, normalize_url_eq, hv]
    rw [if_pos ⟨endsWith_append_slash _, by rw [← hv]; exact hroot⟩]
    rw [if_neg (by simp [hu])]
    exact congrArg String.mk (dropLast_append_slash _)

/-- Witness for C6 at the spec's fragment example. -/
theorem C6_witness :
    SE.normalize_url ⟨"https", "x.com", "out"⟩ "https://x.com/a#frag1" =
      SE.normalize_url ⟨"https", "x.com", "out"⟩ "https://x.com/a#frag2" :=
  (C6_normalization ⟨"https", "x.com", "out"⟩ "https://x.com/a#frag1"
      "https://x.com/a#frag2").1
    (by decide) (by decide) (by decide) (by decide) (by decide)

/-- The crawl-loop invariant argument: from any state whose visited list is
duplicate-free, contained in the reachable set `R`, closed up to the queue,
holding or queueing the seed, and within the cap, the loop ends with exactly
`min cap R.card` visited pages, and with a nonempty abandoned queue whenever
the cap is smaller than the reachable count. -/
theorem crawl_card {α : Type} [DecidableEq α] (g : α → List α) (seed : α)
    (cap : Nat) (R : Finset α) (hR : ∀ x, x ∈ R ↔ SE.Reaches g seed x) :
    ∀ (v q : List α), v.Nodup →
      (∀ x ∈ v, x ∈ R) → (∀ x ∈ q, x ∈ R) →
      (∀ u ∈ v, ∀ l ∈ g u, l ∈ v ∨ l ∈ q) →
      (seed ∈ v ∨ seed ∈ q) →
      v.length ≤ cap →
      (SE.crawl g cap v q).1.length = min cap R.card ∧
        (cap < R.card → (SE.crawl g cap v q).2 ≠ []) := by
  intro v q
  induction v, q using SE.crawl.induct g cap with
  | case1 vl =>
    intro hnd hvR _ hclose hseed hlen
    have hcrawl : SE.crawl g cap vl [] = (vl, []) := by rw [SE.crawl]
    have hseedv : seed ∈ vl := by
      rcases hseed with h | h
      · exact h
      · simp at h
    have hRsub : ∀ x, SE.Reaches g seed x → x ∈ vl := by
      intro x hx
      induction hx with
      | base => exact hseedv
      | step h1 h2 ih =>
        rcases hclose _ ih _ h2 with h | h
        · exact h
        · simp at h
    have hveq : vl.toFinset = R := by
      apply Finset.ext
      intro x
      simp only [List.mem_toFinset]
      exact ⟨fun hx => hvR x hx, fun hx => hRsub x ((hR x).mp hx)⟩
    have hcard : R.card = vl.length := by
      rw [← hveq, List.toFinset_card_of_nodup hnd]
    rw [hcrawl]
    constructor
    · rw [hcard]
      exact (Nat.min_eq_right hlen).symm
    · intro hlt
      rw [hcard] at hlt
      omega
  | case2 vl u rest hguard hmem ih =>
    intro hnd hvR hqR hclose hseed hlen
    have hcrawl : SE.crawl g cap vl (u :: rest) = SE.crawl g cap vl rest := by
      rw [SE.crawl]
      simp [hguard, hmem]
    rw [hcrawl]
    apply ih hnd hvR
    · intro x hx
      exact hqR x (List.mem_cons_of_mem _ hx)
    · intro w hw l hl
      rcases hclose w hw l hl with h | h
      · exact Or.inl h
      · rcases List.mem_cons.mp h with h' | h'
        · exact Or.inl (h' ▸ hmem)
        · exact Or.inr h'
    · rcases hseed with h | h
      · exact Or.inl h
      · rcases List.mem_cons.mp h with h' | h'
        · exact Or.inl (h' ▸ hmem)
        · exact Or.inr h'
    · exact hlen
  | case3 vl u rest hguard hmem ih =>
    intro hnd hvR hqR hclose hseed hlen
    have hcrawl : SE.crawl g cap vl (u :: rest) =
        SE.crawl g cap (vl ++ [u])
          (rest ++ (g u).filter (fun l => ¬l ∈ vl ++ [u])) := by
      rw [SE.crawl]
      simp [hguard, hmem]
    rw [hcrawl]
    apply ih
    · simp [List.nodup_append, hnd, hmem]
    · intro x hx
      rcases List.mem_append.mp hx with h | h
      · exact hvR x h
      · obtain rfl := List.mem_singleton.mp h
        exact hqR x (List.mem_cons_self _ _)
    · intro x hx
      rcases List.mem_append.mp hx with h | h
      · exact hqR x (List.mem_cons_of_mem _ h)
      · have hx' : x ∈ g u := List.mem_of_mem_filter h
        have hu : SE.Reaches g seed u := (hR u).mp (hqR u (List.mem_cons_self _ _))
        exact (hR x).mpr (SE.Reaches.step hu hx')
    · intro w hw l hl
      rcases List.mem_append.mp hw with h | h
      · rcases hclose w h l hl with h' | h'
        · exact Or.inl (List.mem_append.mpr (Or.inl h'))
        · rcases List.mem_cons.mp h' with h'' | h''
          · exact Or.inl (by simp [h''])
          · exact Or.inr (List.mem_append.mpr (Or.inl h''))
      · obtain rfl := List.mem_singleton.mp h
        by_cases hv : l ∈ vl ++ [w]
        · exact Or.inl hv
        · refine Or.inr (List.mem_append.mpr (Or.inr ?_))
          rw [List.mem_filter]
          exact ⟨hl, by simpa using hv⟩
    · rcases hseed with h | h
      · exact Or.inl (List.mem_append.mpr (Or.inl h))
      · rcases List.mem_cons.mp h with h' | h'
        · exact Or.inl (by simp [h'])
        · exact Or.inr (List.mem_append.mpr (Or.inl h'))
    · simp only [List.length_append, List.length_cons, List.length_nil]
      omega
  | case4 vl u rest hguard =>
    intro hnd hvR _ _ _ hlen
    have hcrawl : SE.crawl g cap vl (u :: rest) = (vl, u :: rest) := by
      rw [SE.crawl]
      simp [hguard]
    rw [hcrawl]
    have hsub : vl.toFinset ⊆ R := fun x hx => hvR x (List.mem_toFinset.mp hx)
    have hle : vl.toFinset.card ≤ R.card := Finset.card_le_card hsub
    have hveq : vl.length = vl.toFinset.card :=
      (List.toFinset_card_of_nodup hnd).symm
    constructor
    · have hcap : vl.length = cap := by omega
      rw [hcap]
      have : cap ≤ R.card := by omega
      exact (Nat.min_eq_left this).symm
    · intro _
      simp

/-- C4: under a configured page cap the crawl loop terminates having visited
exactly `min cap R.card` pages, where `R` is the set of pages reachable from
the seed along extracted links, and when the cap is smaller than the
reachable count the remaining queue is abandoned nonempty rather than
drained. -/
theorem C4_crawl_terminates {α : Type} [DecidableEq α] (g : α → List α)
    (cap : Nat) (seed : α) (R : Finset α)
    (hR : ∀ x, x ∈ R ↔ SE.Reaches g seed x) :
    (SE.crawl g cap [] [seed]).1.length = min cap R.card ∧
    (cap < R.card → (SE.crawl g cap [] [seed]).2 ≠ []) := by
  apply crawl_card g seed cap R hR
  · exact List.nodup_nil
  · intro x hx
    simp at hx
  · intro x hx
    obtain rfl := List.mem_singleton.mp hx
    exact (hR x).mpr SE.Reaches.base
  · intro u hu
    simp at hu
  · exact Or.inr (by simp)
  · simp

/-- Witness for C4: a three-page site crawled with cap 1 visits exactly
`min 1 3` pages and abandons a nonempty queue. -/
theorem C4_witness :
    (SE.crawl (fun n : Nat => if n = 0 then [1, 2] else []) 1 [] [0]).1.length =
      min 1 ({0, 1, 2} : Finset Nat).card ∧
    (SE.crawl (fun n : Nat => if n = 0 then [1, 2] else []) 1 [] [0]).2 ≠ [] := by
  have hR : ∀ x : Nat, x ∈ ({0, 1, 2} : Finset Nat) ↔
      SE.Reaches (fun n : Nat => if n = 0 then [1, 2] else []) 0 x := by
    intro x
    constructor
    · intro hx
      simp at hx
      rcases hx with rfl | rfl | rfl
      · exact SE.Reaches.base
      · exact SE.Reaches.step SE.Reaches.base (by simp)
      · exact SE.Reaches.step SE.Reaches.base (by simp)
    · intro hx
      induction hx with
      | base => simp
      | step h1 h2 ih =>
        simp only [Finset.mem_insert, Finset.mem_singleton] at ih
        rcases ih with rfl | rfl | rfl
        · simp at h2
          rcases h2 with rfl | rfl <;> simp
        · simp at h2
        · simp at h2
  have t := C4_crawl_terminates (fun n : Nat => if n = 0 then [1, 2] else [])
    1 0 ({0, 1, 2} : Finset Nat) hR
  exact ⟨t.1, t.2 (by decide)⟩

/-- `rfind` misses characters that do not occur. -/
theorem rIdxOf_eq_none_of_not_mem {l : List Char} {c : Char} (h : c ∉ l) :
    Py.rIdxOf l c = none := by
  induction l with
  | nil => rfl
  | cons x xs ih =>
    have hx : x ≠ c := fun hc => h (hc ▸ List.mem_cons_self _ _)
    have hxs : c ∉ xs := fun hc => h (List.mem_cons_of_mem _ hc)
    rw [Py.rIdxOf, ih hxs]
    simp [hx]

/-- `rfind` locates a unique separator. -/
theorem rIdxOf_append_cons (u d : List Char) (c : Char)
    (hu : c ∉ u) (hd : c ∉ d) :
    Py.rIdxOf (u ++ c :: d) c = some u.length := by
  induction u with
  | nil =>
    rw [List.nil_append, Py.rIdxOf, rIdxOf_eq_none_of_not_mem hd]
    simp
  | cons x xs ih =>
    have hxs : c ∉ xs := fun hc => hu (List.mem_cons_of_mem _ hc)
    rw [List.cons_append, Py.rIdxOf, ih hxs]
    simp

/-- `rsplit(' ', 1)` of `"<url> <descriptor>"` recovers URL and descriptor
when neither contains a blank. -/
theorem rsplitOnce_render (u d : String) (hu : ' ' ∉ u.data)
    (hd : ' ' ∉ d.data) :
    Py.rsplitOnce (u ++ " " ++ d) ' ' = [u, d] := by
  have hdata : (u ++ " " ++ d).data = u.data ++ ' ' :: d.data := by
    simp
  rw [Py.rsplitOnce, hdata, rIdxOf_append_cons _ _ _ hu hd]
  have ht : (u.data ++ ' ' :: d.data).take u.data.length = u.data :=
    List.take_left _ _
  have h1 : (u.data ++ [' ']).length = u.length + 1 := by
    rw [List.length_append]
    rfl
  have hr : (u.data ++ ' ' :: d.data).drop (u.length + 1) = d.data := by
    rw [show u.data ++ ' ' :: d.data = (u.data ++ [' ']) ++ d.data by simp, ← h1]
    exact List.drop_left _ _
  simp [ht, hr, string_mk_data]

/-- The separator-splitting scan never returns an empty list of pieces. -/
theorem splitCharAux_ne_nil (c : Char) (l : List Char) :
    Py.splitCharAux c l ≠ [] := by
  induction l with
  | nil => simp [Py.splitCharAux]
  | cons x xs ih =>
    rw [Py.splitCharAux]
    by_cases hx : x = c
    · simp [hx]
    · simp only [hx, if_false]
      cases h : Py.splitCharAux c xs with
      | nil => exact absurd h ih
      | cons a as => simp

/-- A separator-free list splits into itself. -/
theorem splitCharAux_no_sep {c : Char} {l : List Char} (h : c ∉ l) :
    Py.splitCharAux c l = [l] := by
  induction l with
  | nil => rfl
  | cons x xs ih =>
    have hx : x ≠ c := fun hc => h (hc ▸ List.mem_cons_self _ _)
    have hxs : c ∉ xs := fun hc => h (List.mem_cons_of_mem _ hc)
    rw [Py.splitCharAux]
    simp only [hx, if_false]
    rw [ih hxs]

/-- Splitting starts afresh after the first separator. -/
theorem splitCharAux_append {c : Char} {a : List Char} (rest : List Char)
    (h : c ∉ a) :
    Py.splitCharAux c (a ++ c :: rest) = a :: Py.splitCharAux c rest := by
  induction a with
  | nil =>
    rw [List.nil_append, Py.splitCharAux]
    simp
  | cons x xs ih =>
    have hx : x ≠ c := fun hc => h (hc ▸ List.mem_cons_self _ _)
    have hxs : c ∉ xs := fun hc => h (List.mem_cons_of_mem _ hc)
    rw [List.cons_append, Py.splitCharAux, ih hxs]
    simp [hx]

/-- Two strings with equal character data are equal. -/
theorem string_ext {a b : String} (h : a.data = b.data) : a = b := by
  obtain ⟨la⟩ := a
  obtain ⟨lb⟩ := b
  cases h
  rfl

/-- Splitting at a non-separator head prepends it to the first piece. -/
theorem splitCharAux_cons_ne {x c : Char} (l : List Char) (hx : x ≠ c) :
    Py.splitCharAux c (x :: l) =
      (x :: (Py.splitCharAux c l).headD []) :: (Py.splitCharAux c l).tail := by
  rw [Py.splitCharAux]
  simp only [hx, if_false]
  cases h : Py.splitCharAux c l with
  | nil => exact absurd h (splitCharAux_ne_nil _ _)
  | cons a as => simp

/-- Splitting a `", "`-joined list on `','` recovers the pieces, the later
ones with their leading blank. -/
theorem split_intercalate (p : String) (ps : List String)
    (hp : ',' ∉ p.data) (hps : ∀ s ∈ ps, ',' ∉ s.data) :
    Py.splitOnChar (Py.intercalate ", " (p :: ps)) ',' =
      p :: ps.map (fun s => " " ++ s) := by
  induction ps generalizing p with
  | nil =>
    rw [Py.intercalate, Py.splitOnChar, splitCharAux_no_sep hp]
    simp [string_mk_data]
  | cons q qs ih =>
    have hq : ',' ∉ q.data := hps q (List.mem_cons_self _ _)
    have hqs : ∀ s ∈ qs, ',' ∉ s.data := fun s hs => hps s (List.mem_cons_of_mem _ hs)
    have hdata : (p ++ ", " ++ Py.intercalate ", " (q :: qs)).data =
        p.data ++ ',' :: (' ' :: (Py.intercalate ", " (q :: qs)).data) := by
      simp
    have hih := ih q hq hqs
    rw [Py.splitOnChar] at hih
    cases haux : Py.splitCharAux ',' (Py.intercalate ", " (q :: qs)).data with
    | nil => exact absurd haux (splitCharAux_ne_nil _ _)
    | cons a as =>
      rw [haux, List.map_cons, List.cons.injEq] at hih
      obtain ⟨h1, h2⟩ := hih
      have ha : a = q.data := congrArg String.data h1
      show Py.splitOnChar (p ++ ", " ++ Py.intercalate ", " (q :: qs)) ',' = _
      rw [Py.splitOnChar, hdata, splitCharAux_append _ hp,
        splitCharAux_cons_ne _ (by decide), haux]
      simp only [List.headD_cons, List.tail_cons, List.map_cons]
      refine congrArg₂ _ (string_mk_data p) (congrArg₂ _ ?_ h2)
      apply string_ext
      rw [ha]
      simp

/-- Stripping ignores one leading blank. -/
theorem strip_append_space (s : String) : Py.strip (" " ++ s) = Py.strip s := by
  have hd : (" " ++ s).data = ' ' :: s.data := by simp
  simp [Py.strip, hd, List.dropWhile_cons]

/-- A rendered `"<url> <descriptor>"` entry with whitespace-free nonempty
pieces strips to itself. -/
theorem strip_entry (u d : String) (hu0 : u.data ≠ [])
    (hu : ∀ c ∈ u.data, c.isWhitespace = false) (hd0 : d.data ≠ [])
    (hd : ∀ c ∈ d.data, c.isWhitespace = false) :
    Py.strip (u ++ " " ++ d) = u ++ " " ++ d := by
  have hdata : (u ++ " " ++ d).data = u.data ++ ' ' :: d.data := by simp
  have hfront : (u.data ++ ' ' :: d.data).dropWhile Char.isWhitespace =
      u.data ++ ' ' :: d.data := by
    cases hu' : u.data with
    | nil => exact absurd hu' hu0
    | cons x xs =>
      rw [List.cons_append, List.dropWhile_cons]
      have hx : x.isWhitespace = false := hu x (hu' ▸ List.mem_cons_self _ _)
      simp [hx]
  have hrev : (u.data ++ ' ' :: d.data).reverse =
      d.data.reverse ++ (' ' :: u.data.reverse) := by
    simp
  have hback : ((u.data ++ ' ' :: d.data).reverse).dropWhile Char.isWhitespace =
      (u.data ++ ' ' :: d.data).reverse := by
    rw [hrev]
    cases hd' : d.data.reverse with
    | nil => exact absurd (List.reverse_eq_nil_iff.mp hd') hd0
    | cons y ys =>
      rw [List.cons_append, List.dropWhile_cons]
      have hy : y ∈ d.data := by
        have hym : y ∈ d.data.reverse := hd' ▸ List.mem_cons_self _ _
        exact List.mem_reverse.mp hym
      simp [hd y hy]
  show (⟨(((u ++ " " ++ d).data.dropWhile Char.isWhitespace).reverse.dropWhile
      Char.isWhitespace).reverse⟩ : String) = _
  rw [hdata, hfront, hback, List.reverse_reverse]
  exact string_ext (by rw [hdata])

/-- A successful lookup exhibits membership in the dict. -/
theorem lookupRes_mem {res : List (String × String)} {k v : String}
    (h : SE.lookupRes res k = some v) : (k, v) ∈ res := by
  induction res with
  | nil => simp [SE.lookupRes] at h
  | cons p rest ih =>
    obtain ⟨a, b⟩ := p
    by_cases ha : a = k
    · rw [SE.lookupRes, if_pos ha] at h
      injection h with h
      subst ha
      subst h
      exact List.mem_cons_self _ _
    · rw [SE.lookupRes, if_neg ha] at h
      exact List.mem_cons_of_mem _ (ih h)

/-- A fresh computation of `scrap-everything`'s allocator ignores memo
entries for other URLs. -/
theorem glp_indep (cfg : SE.Config) {res : List (String × String)}
    {u : String} (t : String) (h : SE.lookupRes res u = none) :
    SE.get_local_path cfg res u t = SE.get_local_path cfg [] u t := by
  simp [SE.get_local_path, h, SE.lookupRes]

namespace SE

/-- The `downloaded_resources` dict records exactly the allocator's pure
image paths. -/
def InvRes (cfg : Config) (res : List (String × String)) : Prop :=
  ∀ p ∈ res, p.2 = get_local_path cfg [] p.1 "images"

end SE

/-- Processing one srcset entry `"<url> <descriptor>"`: the URL is resolved
and allocated (recorded on success), and the emitted entry is the allocated
page-relative path re-joined with the untouched descriptor. -/
theorem srcset_part_step (cfg : SE.Config) (fetchOk : String → Bool)
    (pageUrl pageDir u d part0 : String) (acc : List String)
    (res : List (String × String)) (hinv : SE.InvRes cfg res)
    (hstrip : Py.strip part0 = u ++ " " ++ d)
    (hu0 : u.data ≠ []) (husp : ' ' ∉ u.data) (hdsp : ' ' ∉ d.data)
    (hfetch : fetchOk (Py.urljoin pageUrl u) = true)
    (hrel : Py.strip (Py.replaceChar (Py.relpath (SE.get_local_path cfg []
        (Py.urljoin pageUrl u) "images") pageDir) '\\' '/' ++ " " ++ d) =
      Py.replaceChar (Py.relpath (SE.get_local_path cfg []
        (Py.urljoin pageUrl u) "images") pageDir) '\\' '/' ++ " " ++ d) :
    ∃ res', SE.processSrcsetPart cfg fetchOk pageUrl pageDir (acc, res) part0 =
        (acc ++ [Py.replaceChar (Py.relpath (SE.get_local_path cfg []
          (Py.urljoin pageUrl u) "images") pageDir) '\\' '/' ++ " " ++ d],
          res') ∧
      SE.InvRes cfg res' := by
  have hne : ¬(u ++ " " ++ d) = "" := by
    intro hc
    have hc' := congrArg String.data hc
    simp at hc'
  rw [SE.processSrcsetPart, hstrip, if_neg hne,
    rsplitOnce_render u d husp hdsp]
  simp only [List.headD_cons, List.length_cons, List.length_nil,
    List.getD_cons_succ, List.getD_cons_zero, gt_iff_lt, Nat.lt_add_one,
    show (1 : Nat) < 2 by decide, if_true, if_pos]
  cases hl : SE.lookupRes res (Py.urljoin pageUrl u) with
  | some p =>
    have hp : p = SE.get_local_path cfg [] (Py.urljoin pageUrl u) "images" :=
      hinv _ (lookupRes_mem hl)
    refine ⟨res, ?_, hinv⟩
    simp only [hl, hp, hrel]
  | none =>
    have hglp : SE.get_local_path cfg res (Py.urljoin pageUrl u) "images" =
        SE.get_local_path cfg [] (Py.urljoin pageUrl u) "images" :=
      glp_indep cfg "images" hl
    refine ⟨res ++ [(Py.urljoin pageUrl u,
        SE.get_local_path cfg res (Py.urljoin pageUrl u) "images")], ?_, ?_⟩
    · simp only [hl, hfetch, if_true, hglp, hrel]
    · intro q hq
      rcases List.mem_append.mp hq with h | h
      · exact hinv q h
      · obtain rfl := List.mem_singleton.mp h
        exact hglp

/-- Folding the srcset loop over a list of parts, each stripping to a
rendered `"<url> <descriptor>"` entry, appends exactly the rewritten entries
in order while maintaining the dict invariant. -/
theorem srcset_fold (cfg : SE.Config) (fetchOk : String → Bool)
    (pageUrl pageDir : String) :
    ∀ (l : List (String × String × String)) (acc : List String)
      (res : List (String × String)), SE.InvRes cfg res →
      (∀ pe ∈ l,
        Py.strip pe.1 = pe.2.1 ++ " " ++ pe.2.2 ∧
        pe.2.1.data ≠ [] ∧ ' ' ∉ pe.2.1.data ∧ ' ' ∉ pe.2.2.data ∧
        fetchOk (Py.urljoin pageUrl pe.2.1) = true ∧
        Py.strip (Py.replaceChar (Py.relpath (SE.get_local_path cfg []
            (Py.urljoin pageUrl pe.2.1) "images") pageDir) '\\' '/' ++ " " ++
            pe.2.2) =
          Py.replaceChar (Py.relpath (SE.get_local_path cfg []
            (Py.urljoin pageUrl pe.2.1) "images") pageDir) '\\' '/' ++ " " ++
            pe.2.2) →
      ∃ res', (l.map (fun pe => pe.1)).foldl
          (SE.processSrcsetPart cfg fetchOk pageUrl pageDir) (acc, res) =
        (acc ++ l.map (fun pe =>
          Py.replaceChar (Py.relpath (SE.get_local_path cfg []
            (Py.urljoin pageUrl pe.2.1) "images") pageDir) '\\' '/' ++ " " ++
            pe.2.2), res') ∧
        SE.InvRes cfg res' := by
  intro l
  induction l with
  | nil =>
    intro acc res hinv _
    exact ⟨res, by simp, hinv⟩
  | cons pe l ih =>
    intro acc res hinv hconds
    obtain ⟨h1, h2, h3, h4, h5, h6⟩ := hconds pe (List.mem_cons_self _ _)
    obtain ⟨res1, hstep, hinv1⟩ := srcset_part_step cfg fetchOk pageUrl pageDir
      pe.2.1 pe.2.2 pe.1 acc res hinv h1 h2 h3 h4 h5 h6
    obtain ⟨res', hfold, hinv'⟩ := ih (acc ++ [Py.replaceChar
      (Py.relpath (SE.get_local_path cfg [] (Py.urljoin pageUrl pe.2.1)
        "images") pageDir) '\\' '/' ++ " " ++ pe.2.2]) res1 hinv1
      (fun q hq => hconds q (List.mem_cons_of_mem _ hq))
    refine ⟨res', ?_, hinv'⟩
    rw [List.map_cons, List.foldl_cons, hstep, hfold]
    simp

/-- C8: srcset rewriting preserves entries verbatim apart from the URL: a
srcset rendered from entries `"<url> <descriptor>"` (nonempty,
whitespace- and comma-free tokens), all of whose URLs download successfully,
rewrites to the same entries in the same order, each URL replaced by its
allocated page-relative local path and each descriptor preserved character
for character. -/
theorem C8_srcset_preservation (cfg : SE.Config) (fetchOk : String → Bool)
    (pageUrl pageDir : String) (entries : List (String × String))
    (hne : entries ≠ [])
    (hents : ∀ e ∈ entries,
      e.1.data ≠ [] ∧ e.2.data ≠ [] ∧
      (∀ c ∈ e.1.data, c.isWhitespace = false ∧ c ≠ ',') ∧
      (∀ c ∈ e.2.data, c.isWhitespace = false ∧ c ≠ ',') ∧
      fetchOk (Py.urljoin pageUrl e.1) = true ∧
      (Py.replaceChar (Py.relpath (SE.get_local_path cfg []
          (Py.urljoin pageUrl e.1) "images") pageDir) '\\' '/').data ≠ [] ∧
      (∀ c ∈ (Py.replaceChar (Py.relpath (SE.get_local_path cfg []
          (Py.urljoin pageUrl e.1) "images") pageDir) '\\' '/').data,
        c.isWhitespace = false)) :
    (SE.processSrcset cfg fetchOk [] pageUrl pageDir
        (Py.intercalate ", " (entries.map (fun e => e.1 ++ " " ++ e.2)))).1 =
      Py.intercalate ", " (entries.map (fun e =>
        Py.replaceChar (Py.relpath (SE.get_local_path cfg []
          (Py.urljoin pageUrl e.1) "images") pageDir) '\\' '/' ++ " " ++ e.2)) := by
  cases entries with
  | nil => exact absurd rfl hne
  | cons e0 es =>
    have hcomma : ∀ e : String × String, e ∈ e0 :: es →
        ',' ∉ (e.1 ++ " " ++ e.2).data := by
      intro e he hc
      obtain ⟨-, -, hu, hd, -⟩ := hents e he
      rw [show (e.1 ++ " " ++ e.2).data = e.1.data ++ ' ' :: e.2.data by simp]
        at hc
      rcases List.mem_append.mp hc with h | h
      · exact absurd rfl (hu ',' h).2
      · rcases List.mem_cons.mp h with h' | h'
        · cases h'
        · exact absurd rfl (hd ',' h').2
    have hsplit := split_intercalate (e0.1 ++ " " ++ e0.2)
      (es.map (fun e => e.1 ++ " " ++ e.2))
      (hcomma e0 (List.mem_cons_self _ _))
      (by
        intro s hs
        rw [List.mem_map] at hs
        obtain ⟨e, he, rfl⟩ := hs
        exact hcomma e (List.mem_cons_of_mem _ he))
    have hcond : ∀ pe ∈ ((e0.1 ++ " " ++ e0.2, e0) ::
        es.map (fun e => (" " ++ (e.1 ++ " " ++ e.2), e))),
        Py.strip pe.1 = pe.2.1 ++ " " ++ pe.2.2 ∧
        pe.2.1.data ≠ [] ∧ ' ' ∉ pe.2.1.data ∧ ' ' ∉ pe.2.2.data ∧
        fetchOk (Py.urljoin pageUrl pe.2.1) = true ∧
        Py.strip (Py.replaceChar (Py.relpath (SE.get_local_path cfg []
            (Py.urljoin pageUrl pe.2.1) "images") pageDir) '\\' '/' ++ " " ++
            pe.2.2) =
          Py.replaceChar (Py.relpath (SE.get_local_path cfg []
            (Py.urljoin pageUrl pe.2.1) "images") pageDir) '\\' '/' ++ " " ++
            pe.2.2 := by
      intro pe hpe
      have hget : ∃ e ∈ e0 :: es,
          (pe.2 = e ∧ (pe.1 = e.1 ++ " " ++ e.2 ∨
            pe.1 = " " ++ (e.1 ++ " " ++ e.2))) := by
        rcases List.mem_cons.mp hpe with h | h
        · exact ⟨e0, List.mem_cons_self _ _, by rw [h], by rw [h]; exact Or.inl rfl⟩
        · rw [List.mem_map] at h
          obtain ⟨e, he, rfl⟩ := h
          exact ⟨e, List.mem_cons_of_mem _ he, rfl, Or.inr rfl⟩
      obtain ⟨e, he, hpe2, hpe1⟩ := hget
      obtain ⟨hu0, hd0, hu, hd, hf, hr0, hrw⟩ := hents e he
      have husp : ' ' ∉ e.1.data := fun hc => by simpa using (hu ' ' hc).1
      have hdsp : ' ' ∉ e.2.data := fun hc => by simpa using (hd ' ' hc).1
      have hstrip0 : Py.strip (e.1 ++ " " ++ e.2) = e.1 ++ " " ++ e.2 :=
        strip_entry e.1 e.2 hu0 (fun c hc => (hu c hc).1) hd0
          (fun c hc => (hd c hc).1)
      have hstrip : Py.strip pe.1 = e.1 ++ " " ++ e.2 := by
        rcases hpe1 with h | h
        · rw [h, hstrip0]
        · rw [h, strip_append_space, hstrip0]
      have hrel : Py.strip (Py.replaceChar (Py.relpath (SE.get_local_path cfg []
            (Py.urljoin pageUrl e.1) "images") pageDir) '\\' '/' ++ " " ++ e.2) =
          Py.replaceChar (Py.relpath (SE.get_local_path cfg []
            (Py.urljoin pageUrl e.1) "images") pageDir) '\\' '/' ++ " " ++ e.2 :=
        strip_entry _ e.2 hr0 hrw hd0 (fun c hc => (hd c hc).1)
      rw [hpe2]
      exact ⟨hstrip, hu0, husp, hdsp, hf, hrel⟩
    obtain ⟨res', hfold, -⟩ := srcset_fold cfg fetchOk pageUrl pageDir
      ((e0.1 ++ " " ++ e0.2, e0) ::
        es.map (fun e => (" " ++ (e.1 ++ " " ++ e.2), e))) [] []
      (fun p hp => by cases hp) hcond
    have hparts : ((e0.1 ++ " " ++ e0.2, e0) ::
        es.map (fun e => (" " ++ (e.1 ++ " " ++ e.2), e))).map
          (fun pe => pe.1) =
        (e0.1 ++ " " ++ e0.2) ::
          (es.map (fun e => e.1 ++ " " ++ e.2)).map (fun s => " " ++ s) := by
      simp [List.map_map]
    rw [SE.processSrcset, List.map_cons, hsplit, ← hparts, hfold]
    have hl2 : ((e0.1 ++ " " ++ e0.2, e0) ::
        es.map (fun e => (" " ++ (e.1 ++ " " ++ e.2), e))).map
          (fun pe => Py.replaceChar (Py.relpath (SE.get_local_path cfg []
            (Py.urljoin pageUrl pe.2.1) "images") pageDir) '\\' '/' ++ " " ++
            pe.2.2) =
        (e0 :: es).map (fun e =>
          Py.replaceChar (Py.relpath (SE.get_local_path cfg []
            (Py.urljoin pageUrl e.1) "images") pageDir) '\\' '/' ++ " " ++ e.2) := by
      simp [List.map_map]
    rw [hl2]
    simp

/-- Witness for C8 at the spec's example `"img1.jpg 1x, img2.jpg 2x"`. -/
theorem C8_witness :
    (SE.processSrcset ⟨"https", "x.com", "scraped_website"⟩ (fun _ => true) []
        "https://x.com/" "scraped_website"
        (Py.intercalate ", " (([("img1.jpg", "1x"), ("img2.jpg", "2x")] :
          List (String × String)).map (fun e => e.1 ++ " " ++ e.2)))).1 =
      Py.intercalate ", " (([("img1.jpg", "1x"), ("img2.jpg", "2x")] :
          List (String × String)).map (fun e =>
        Py.replaceChar (Py.relpath (SE.get_local_path
          ⟨"https", "x.com", "scraped_website"⟩ []
          (Py.urljoin "https://x.com/" e.1) "images") "scraped_website")
          '\\' '/' ++ " " ++ e.2)) :=
  C8_srcset_preservation ⟨"https", "x.com", "scraped_website"⟩ (fun _ => true)
    "https://x.com/" "scraped_website" [("img1.jpg", "1x"), ("img2.jpg", "2x")]
    (by decide) (by decide)

example :
    (SE.processSrcset ⟨"https", "x.com", "scraped_website"⟩ (fun _ => true) []
        "https://x.com/" "scraped_website" "img1.jpg 1x, img2.jpg 2x").1 =
      "assets/images/img1_56c55d81.jpg 1x, assets/images/img2_dd983a85.jpg 2x" := by
  decide

/-- `leBytes` always emits the requested number of bytes. -/
theorem leBytes_length : ∀ (n x : Nat), (MD5.leBytes n x).length = n := by
  intro n
  induction n with
  | zero => intro x; rfl
  | succ n ih => intro x; simp [MD5.leBytes, ih]

/-- An MD5 digest is 16 bytes. -/
theorem digest_length (m : List Nat) : (MD5.digest m).length = 16 := by
  simp [MD5.digest, leBytes_length]

/-- An MD5 hexdigest is 32 characters. -/
theorem hexdigest_length (s : String) : (MD5.hexdigest s).data.length = 32 := by
  have key : ∀ l : List Nat, ((l.map MD5.hexByte).flatten).length = 2 * l.length := by
    intro l
    induction l with
    | nil => rfl
    | cons b bs ih =>
      simp only [List.map_cons, List.flatten_cons, List.length_append, ih]
      simp [MD5.hexByte]
      omega
  show ((MD5.digest (MD5.asciiBytes s)).map MD5.hexByte).flatten.length = 32
  rw [key, digest_length]

/-- The URL hash suffix is 8 characters. -/
theorem get_url_hash_length (u : String) : (SE.get_url_hash u).data.length = 8 := by
  show ((MD5.hexdigest u).data.take 8).length = 8
  rw [List.length_take, hexdigest_length]
  decide

/-- A list element accessed with a default is an element or the default. -/
theorem getD_mem_or (l : List Char) (n : Nat) (d : Char) :
    l.getD n d ∈ l ∨ l.getD n d = d := by
  induction l generalizing n with
  | nil => exact Or.inr rfl
  | cons x xs ih =>
    cases n with
    | zero => exact Or.inl (List.mem_cons_self _ _)
    | succ n =>
      rcases ih n with h | h
      · exact Or.inl (List.mem_cons_of_mem _ (by simpa using h))
      · exact Or.inr (by simpa using h)

/-- Hex digits are never a slash. -/
theorem hexDigit_ne_slash (n : Nat) : MD5.hexDigit n ≠ '/' := by
  rcases getD_mem_or "0123456789abcdef".data n '0' with h | h
  · intro hc
    have hc' : "0123456789abcdef".data.getD n '0' = '/' := hc
    rw [hc'] at h
    revert h
    decide
  · show "0123456789abcdef".data.getD n '0' ≠ '/'
    rw [h]
    decide

/-- The URL hash suffix contains no slash. -/
theorem get_url_hash_no_slash (u : String) :
    ∀ c ∈ (SE.get_url_hash u).data, c ≠ '/' := by
  intro c hc
  have hc1 : c ∈ ((MD5.digest (MD5.asciiBytes u)).map MD5.hexByte).flatten :=
    List.mem_of_mem_take hc
  rw [List.mem_flatten] at hc1
  obtain ⟨b, hb, hcb⟩ := hc1
  rw [List.mem_map] at hb
  obtain ⟨x, -, rfl⟩ := hb
  rcases List.mem_cons.mp hcb with h | h
  · exact h ▸ hexDigit_ne_slash _
  · rcases List.mem_cons.mp h with h' | h'
    · exact h' ▸ hexDigit_ne_slash _
    · cases h'

/-- `rfind` misses only absent characters. -/
theorem not_mem_of_rIdxOf_none {l : List Char} {c : Char}
    (h : Py.rIdxOf l c = none) : c ∉ l := by
  induction l with
  | nil => simp
  | cons x xs ih =>
    rw [Py.rIdxOf] at h
    cases hxs : Py.rIdxOf xs c with
    | some i => rw [hxs] at h; cases h
    | none =>
      rw [hxs] at h
      by_cases hx : x = c
      · rw [if_pos hx] at h; cases h
      · intro hc
        rcases List.mem_cons.mp hc with h' | h'
        · exact hx h'.symm
        · exact ih hxs h'

/-- Nothing beyond the last occurrence equals the sought character. -/
theorem not_mem_drop_rIdxOf {l : List Char} {c : Char} {i : Nat}
    (h : Py.rIdxOf l c = some i) : c ∉ l.drop (i + 1) := by
  induction l generalizing i with
  | nil => cases h
  | cons x xs ih =>
    rw [Py.rIdxOf] at h
    cases hxs : Py.rIdxOf xs c with
    | some j =>
      rw [hxs] at h
      injection h with h
      subst h
      simpa using ih hxs
    | none =>
      rw [hxs] at h
      by_cases hx : x = c
      · rw [if_pos hx] at h
        injection h with h
        subst h
        simpa using not_mem_of_rIdxOf_none hxs
      · rw [if_neg hx] at h
        cases h

/-- A basename never contains a slash. -/
theorem basename_no_slash (p : String) : '/' ∉ (Py.basename p).data := by
  rw [Py.basename]
  cases h : Py.rIdxOf p.data '/' with
  | none => exact not_mem_of_rIdxOf_none h
  | some i => exact not_mem_drop_rIdxOf h

/-- Sanitizing introduces no slash. -/
theorem sanitize_no_slash {s : String} (h : '/' ∉ s.data) :
    '/' ∉ (SE.sanitize s).data := by
  intro hc
  rw [show (SE.sanitize s).data = s.data.map
    (fun c => if c = '<' ∨ c = '>' ∨ c = ':' ∨ c = '"' ∨ c = '|' ∨ c = '?' ∨
      c = '*' then '_' else c) from rfl, List.mem_map] at hc
  obtain ⟨a, ha, hfa⟩ := hc
  by_cases hrepl : a = '<' ∨ a = '>' ∨ a = ':' ∨ a = '"' ∨ a = '|' ∨ a = '?' ∨
      a = '*'
  · rw [if_pos hrepl] at hfa
    cases hfa
  · rw [if_neg hrepl] at hfa
    exact h (hfa ▸ ha)

/-- `splitext` either leaves the input whole or cuts it at a dot index. -/
theorem splitext_cases (s : String) :
    Py.splitext s = (s, "") ∨
    ∃ d, Py.splitext s = (⟨s.data.take d⟩, ⟨s.data.drop d⟩) := by
  simp only [Py.splitext]
  split
  · exact Or.inl rfl
  · rename_i d hd
    split
    · exact Or.inr ⟨d, rfl⟩
    · exact Or.inl rfl

/-- Both `splitext` components draw their characters from the input. -/
theorem splitext_mem (s : String) :
    (∀ c ∈ (Py.splitext s).1.data, c ∈ s.data) ∧
    (∀ c ∈ (Py.splitext s).2.data, c ∈ s.data) := by
  rcases splitext_cases s with h | ⟨d, h⟩ <;> rw [h]
  · exact ⟨fun c hc => hc, fun c hc => by cases hc⟩
  · exact ⟨fun c hc => List.mem_of_mem_take hc, fun c hc => List.mem_of_mem_drop hc⟩

/-- `rfind` of the final separator occurrence. -/
theorem rIdxOf_append_last (x f : List Char) (c : Char) (hf : c ∉ f) :
    Py.rIdxOf (x ++ c :: f) c = some x.length := by
  induction x with
  | nil =>
    rw [List.nil_append, Py.rIdxOf, rIdxOf_eq_none_of_not_mem hf]
    simp
  | cons a as ih =>
    rw [List.cons_append, Py.rIdxOf, ih]
    simp

/-- The basename of `<anything>/<slash-free name>` is the name. -/
theorem basename_append_slash (x : List Char) (fn : String)
    (hfn : '/' ∉ fn.data) :
    Py.basename ⟨x ++ '/' :: fn.data⟩ = fn := by
  rw [Py.basename]
  rw [show (⟨x ++ '/' :: fn.data⟩ : String).data = x ++ '/' :: fn.data from rfl]
  rw [rIdxOf_append_last _ _ _ hfn]
  show (⟨(x ++ '/' :: fn.data).drop (x.length + 1)⟩ : String) = fn
  have hdrop : (x ++ '/' :: fn.data).drop (x.length + 1) = fn.data := by
    rw [show x ++ '/' :: fn.data = (x ++ ['/']) ++ fn.data by simp,
      show x.length + 1 = (x ++ ['/']).length by simp]
    exact List.drop_left _ _
  rw [hdrop]

/-- The basename of a `join` with a nonempty slash-free final component is
that component. -/
theorem basename_join2 (X fn : String) (hfn : '/' ∉ fn.data)
    (hfn0 : fn.data ≠ []) : Py.basename (Py.join2 X fn) = fn := by
  have hstart : ¬(Py.startsWith fn "/" = true) := by
    intro hc
    obtain ⟨t, hft, -⟩ := startsWith_cons hc
    exact hfn (by rw [hft]; exact List.mem_cons_self _ _)
  rw [Py.join2, if_neg hstart]
  by_cases hX : X = "" ∨ Py.endsWith X "/" = true
  · rw [if_pos hX]
    rcases hX with hX | hX
    · subst hX
      rw [show ("" ++ fn : String) = fn from string_ext (by simp)]
      rw [Py.basename, rIdxOf_eq_none_of_not_mem hfn]
    · obtain ⟨t, ht⟩ : ∃ t, X.data.reverse = '/' :: t := by
        rw [Py.endsWith, show ("/" : String).data = ['/'] from rfl] at hX
        rw [show (['/'] : List Char).reverse = ['/'] from rfl] at hX
        cases hxr : X.data.reverse with
        | nil => rw [hxr] at hX; cases hX
        | cons b bs =>
          rw [hxr, Py.startsWithList, Bool.and_eq_true, decide_eq_true_eq] at hX
          exact ⟨bs, by rw [hX.1]⟩
      have hXdata : X.data = t.reverse ++ ['/'] := by
        have h2 := congrArg List.reverse ht
        simpa using h2
      rw [show (X ++ fn : String) = ⟨t.reverse ++ '/' :: fn.data⟩ from
        string_ext (by simp [hXdata])]
      exact basename_append_slash _ _ hfn
  · rw [if_neg hX]
    rw [show (X ++ "/" ++ fn : String) = ⟨X.data ++ '/' :: fn.data⟩ from
      string_ext (by simp)]
    exact basename_append_slash _ _ hfn

/-- Neither component computed by the asset branch contains a slash. -/
theorem assetNameExt_no_slash (t u : String) :
    '/' ∉ (SE.assetNameExt t u).1.data ∧ '/' ∉ (SE.assetNameExt t u).2.data := by
  simp only [SE.assetNameExt]
  set f0 := if Py.basename (Py.urlparse u).path = "" then "resource"
    else Py.basename (Py.urlparse u).path with hf0
  have h0 : '/' ∉ f0.data := by
    rw [hf0]
    split
    · decide
    · exact basename_no_slash _
  have h1 := sanitize_no_slash h0
  have hsp := splitext_mem (SE.sanitize f0)
  refine ⟨fun hc => h1 (hsp.1 _ hc), ?_⟩
  split
  · split
    · decide
    · split
      · decide
      · exact fun hc => h1 (hsp.2 _ hc)
  · exact fun hc => h1 (hsp.2 _ hc)

/-- Equal `<name>_<hash><ext>` basenames with equal-length hash blocks and a
shared extension force equal hashes. -/
theorem hash_suffix_inj {n1 n2 h1 h2 e : String}
    (hl : h1.data.length = h2.data.length)
    (heq : n1 ++ "_" ++ h1 ++ e = n2 ++ "_" ++ h2 ++ e) : h1 = h2 := by
  have hd := congrArg String.data heq
  rw [show (n1 ++ "_" ++ h1 ++ e).data =
        (n1.data ++ '_' :: h1.data) ++ e.data by simp,
    show (n2 ++ "_" ++ h2 ++ e).data =
        (n2.data ++ '_' :: h2.data) ++ e.data by simp] at hd
  have h3 := (List.append_inj' hd rfl).1
  have h4 := (List.append_inj' h3 (by simp [hl])).2
  have h5 : h1.data = h2.data := by
    injection h4
  exact string_ext h5

/-- C2 (amended): in `scrap-everything`'s asset allocator, two URLs given the
same computed extension receive distinct basenames whenever their
8-character MD5 prefixes differ; the truncated hash alone is what separates
same-named files, and it does not guarantee uniqueness for all URL pairs
(see the counterexample, where two distinct URLs share the prefix and
collide). -/
theorem C2_hash_disambiguation (cfg : SE.Config) (u1 u2 t1 t2 : String)
    (ht1 : t1 ≠ "html") (ht2 : t2 ≠ "html")
    (he : (SE.assetNameExt t1 u1).2 = (SE.assetNameExt t2 u2).2)
    (hh : SE.get_url_hash u1 ≠ SE.get_url_hash u2) :
    Py.basename (SE.get_local_path cfg [] u1 t1) ≠
      Py.basename (SE.get_local_path cfg [] u2 t2) := by
  have hglp : ∀ (u t : String), t ≠ "html" → SE.get_local_path cfg [] u t =
      Py.join3 cfg.outputDir (SE.assetSubdir t (SE.assetNameExt t u).2)
        ((SE.assetNameExt t u).1 ++ "_" ++ SE.get_url_hash u ++
          (SE.assetNameExt t u).2) := by
    intro u t ht
    simp [SE.get_local_path, SE.lookupRes, ht]
  have hfn : ∀ (u t : String), '/' ∉ ((SE.assetNameExt t u).1 ++ "_" ++
      SE.get_url_hash u ++ (SE.assetNameExt t u).2).data ∧
      ((SE.assetNameExt t u).1 ++ "_" ++ SE.get_url_hash u ++
        (SE.assetNameExt t u).2).data ≠ [] := by
    intro u t
    have hne := assetNameExt_no_slash t u
    have hshape : ((SE.assetNameExt t u).1 ++ "_" ++ SE.get_url_hash u ++
        (SE.assetNameExt t u).2).data = ((SE.assetNameExt t u).1.data ++
        '_' :: (SE.get_url_hash u).data) ++ (SE.assetNameExt t u).2.data := by
      simp
    constructor
    · intro hc
      rw [hshape] at hc
      rcases List.mem_append.mp hc with h | h
      · rcases List.mem_append.mp h with h' | h'
        · exact hne.1 h'
        · rcases List.mem_cons.mp h' with h'' | h''
          · cases h''
          · exact get_url_hash_no_slash u _ h'' rfl
      · exact hne.2 h
    · intro hc
      rw [hshape] at hc
      simp at hc
  intro hc
  rw [hglp u1 t1 ht1, hglp u2 t2 ht2, Py.join3, Py.join3] at hc
  rw [basename_join2 _ _ (hfn u1 t1).1 (hfn u1 t1).2,
    basename_join2 _ _ (hfn u2 t2).1 (hfn u2 t2).2] at hc
  rw [← he] at hc
  exact hh (hash_suffix_inj
    (by rw [get_url_hash_length, get_url_hash_length]) hc)

/-- Witness for C2 (amended): `a.png` and `b.png` from the same host have
different hash prefixes and hence distinct allocated basenames. -/
theorem C2_witness :
    ("http://x.com/a.png" : String) ≠ "http://x.com/b.png" ∧
    Py.basename (SE.get_local_path ⟨"https", "x.com", "out"⟩ []
        "http://x.com/a.png" "images") ≠
      Py.basename (SE.get_local_path ⟨"https", "x.com", "out"⟩ []
        "http://x.com/b.png" "images") :=
  ⟨by decide,
   C2_hash_disambiguation ⟨"https", "x.com", "out"⟩ "http://x.com/a.png"
     "http://x.com/b.png" "images" "images" (by decide) (by decide) (by decide)
     (by decide)⟩
